import Mathlib

/-!
Verification development for the-synth, a multi-instrument real-time software
synthesizer written in Rust.

Shallow embedding conventions:
* `f32` values are modelled as exact rationals (`ℚ`); the algorithms under
  study are piecewise-linear ramps, clamps and divisions, which the rational
  model reproduces exactly.
* `u8` / `u32` / `u64` values are modelled as naturals, with explicit `% 2^w`
  reduction where the source relies on wrapping arithmetic and with the cast
  `(x : f32) as u64` modelled as `(⌊x⌋).toNat` (truncation toward zero,
  saturating at 0, which agrees with floor-then-toNat on the values reached).
* Transcendental waveform evaluation (`sin`) does not influence any property
  proved here; where a component consumes oscillator samples, the waveform
  value function is passed as an explicit parameter so that the state
  threading stays executable.
-/

namespace TheSynth

/-! ## Waveform (src/types/waveform.rs) -/

/-- Supported waveform types for the oscillator. -/
inductive Waveform
  | sine
  | triangle
  | sawtooth
  | square
deriving DecidableEq, Repr

/-- `Waveform::to_u8`: conversion to a byte for atomic storage. -/
def Waveform.toU8 : Waveform → ℕ
  | .sine => 0
  | .triangle => 1
  | .sawtooth => 2
  | .square => 3

/-- `Waveform::from_u8`: conversion from a byte read from atomic storage;
any unmatched value falls back to `Sine`. -/
def Waveform.fromU8 (value : ℕ) : Waveform :=
  match value with
  | 1 => .triangle
  | 2 => .sawtooth
  | 3 => .square
  | _ => .sine

/-! ## Envelope (src/audio/envelope.rs) -/

/-- `EnvelopeState`: the ADSR state machine's control state. -/
inductive EnvelopeState
  | idle
  | attack (startSample : ℕ)
  | decay (startSample : ℕ)
  | sustain
  | release (startSample : ℕ) (releaseLevel : ℚ)
deriving DecidableEq, Repr

/-- `Envelope`: ADSR envelope generator state. -/
structure Envelope where
  state : EnvelopeState
  attack : ℚ
  decay : ℚ
  sustain : ℚ
  release : ℚ
  currentLevel : ℚ
  sampleRate : ℚ
  sampleCount : ℕ
deriving DecidableEq, Repr

/-- `Envelope::new`: default ADSR values. -/
def Envelope.new (sampleRate : ℚ) : Envelope :=
  { state := .idle
    attack := 1/100
    decay := 1/10
    sustain := 7/10
    release := 3/10
    currentLevel := 0
    sampleRate := sampleRate
    sampleCount := 0 }

/-- `Envelope::set_adsr`: clamps attack/decay/release to at least 1 ms and
sustain into `[0,1]`. -/
def Envelope.setAdsr (e : Envelope) (a d s r : ℚ) : Envelope :=
  { e with
    attack := max a (1/1000)
    decay := max d (1/1000)
    sustain := min (max s 0) 1
    release := max r (1/1000) }

/-- `Envelope::note_on`: start the attack phase at the current sample. -/
def Envelope.noteOn (e : Envelope) : Envelope :=
  { e with state := .attack e.sampleCount }

/-- `Envelope::note_off`: start the release phase, capturing the current
level. -/
def Envelope.noteOff (e : Envelope) : Envelope :=
  { e with state := .release e.sampleCount e.currentLevel }

/-- `Envelope::is_active`: true in every state except `Idle`. -/
def Envelope.isActive (e : Envelope) : Bool :=
  match e.state with
  | .idle => false
  | _ => true

/-- The `(time * sample_rate) as u64` conversion from the source. -/
def Envelope.stageSamples (time sampleRate : ℚ) : ℕ :=
  (⌊time * sampleRate⌋).toNat

/-- `Envelope::next_sample`: advance the state machine one sample and return
the new level. -/
def Envelope.nextSample (e : Envelope) : Envelope × ℚ :=
  let stepped :=
    match e.state with
    | .idle => { e with currentLevel := 0 }
    | .attack startSample =>
        let elapsed := e.sampleCount - startSample
        let attackSamples := Envelope.stageSamples e.attack e.sampleRate
        if attackSamples ≤ elapsed then
          { e with currentLevel := 1, state := .decay e.sampleCount }
        else
          { e with currentLevel := (elapsed : ℚ) / (attackSamples : ℚ) }
    | .decay startSample =>
        let elapsed := e.sampleCount - startSample
        let decaySamples := Envelope.stageSamples e.decay e.sampleRate
        if decaySamples ≤ elapsed then
          { e with currentLevel := e.sustain, state := .sustain }
        else
          { e with currentLevel :=
              1 - ((elapsed : ℚ) / (decaySamples : ℚ)) * (1 - e.sustain) }
    | .sustain => { e with currentLevel := e.sustain }
    | .release startSample releaseLevel =>
        let elapsed := e.sampleCount - startSample
        let releaseSamples := Envelope.stageSamples e.release e.sampleRate
        if releaseSamples ≤ elapsed then
          { e with currentLevel := 0, state := .idle }
        else
          { e with currentLevel :=
              releaseLevel * (1 - (elapsed : ℚ) / (releaseSamples : ℚ)) }
  let advanced := { stepped with sampleCount := stepped.sampleCount + 1 }
  (advanced, advanced.currentLevel)

/-- Iterate `next_sample` a number of times, keeping only the state. -/
def Envelope.nexts (e : Envelope) : ℕ → Envelope
  | 0 => e
  | n + 1 => (Envelope.nexts e n).nextSample.1

/-- An externally driven envelope operation: the calls a host can make
between samples. -/
inductive EnvOp
  | noteOn
  | noteOff
  | next
deriving DecidableEq, Repr

/-- Apply one envelope operation. -/
def Envelope.applyOp (e : Envelope) : EnvOp → Envelope
  | .noteOn => e.noteOn
  | .noteOff => e.noteOff
  | .next => e.nextSample.1

/-- Run a sequence of envelope operations. -/
def Envelope.runOps (e : Envelope) (ops : List EnvOp) : Envelope :=
  ops.foldl Envelope.applyOp e

/-! ## Oscillator (src/dsp/oscillator.rs) -/

/-- Phase-accumulation oscillator state. The waveform value function itself
(`Waveform::generate`, transcendental for sine) is passed as a parameter
where samples are consumed. -/
structure Oscillator where
  phase : ℚ
  phaseDelta : ℚ
  frequency : ℚ
  sampleRate : ℚ
  waveform : Waveform
deriving DecidableEq, Repr

/-- `Oscillator::new`: phase 0, 440 Hz, sine. -/
def Oscillator.new (sampleRate : ℚ) : Oscillator :=
  { phase := 0
    phaseDelta := 440 / sampleRate
    frequency := 440
    sampleRate := sampleRate
    waveform := .sine }

/-- `Oscillator::set_frequency` (also updates the phase delta). -/
def Oscillator.setFrequency (o : Oscillator) (freq : ℚ) : Oscillator :=
  { o with frequency := freq, phaseDelta := freq / o.sampleRate }

/-- `Oscillator::set_waveform`. -/
def Oscillator.setWaveform (o : Oscillator) (w : Waveform) : Oscillator :=
  { o with waveform := w }

/-- `Oscillator::reset`: phase back to 0. -/
def Oscillator.reset (o : Oscillator) : Oscillator :=
  { o with phase := 0 }

/-- `Oscillator::next_sample`, with the waveform evaluation abstracted by
`gen` (mapping waveform and phase to the sample value): returns the sample at
the current phase, then advances and wraps the phase. -/
def Oscillator.nextSample (gen : Waveform → ℚ → ℚ) (o : Oscillator) :
    Oscillator × ℚ :=
  let output := gen o.waveform o.phase
  let newPhase := o.phase + o.phaseDelta
  let wrapped := if 1 ≤ newPhase then newPhase - 1 else newPhase
  ({ o with phase := wrapped }, output)

/-! ## VCA (src/audio/vca.rs) -/

/-- `VCA`: envelope-controlled amplifier with a master gain. -/
structure VCA where
  gain : ℚ
deriving DecidableEq, Repr

/-- `VCA::new`: default gain 0.8. -/
def VCA.new : VCA := { gain := 4/5 }

/-- `VCA::process`: signal times modulation times gain. -/
def VCA.process (v : VCA) (signal modulation : ℚ) : ℚ :=
  signal * modulation * v.gain

/-! ## Voice (src/audio/voice.rs) -/

/-- A polyphonic synth voice: oscillator, envelope and VCA. -/
structure Voice where
  oscillator : Oscillator
  envelope : Envelope
  vca : VCA
deriving DecidableEq, Repr

/-- `Voice::new`. -/
def Voice.new (sampleRate : ℚ) : Voice :=
  { oscillator := Oscillator.new sampleRate
    envelope := Envelope.new sampleRate
    vca := VCA.new }

/-- `Voice::note_on`: set the frequency, reset phase, start the envelope. -/
def Voice.noteOn (v : Voice) (frequency : ℚ) : Voice :=
  { v with
    oscillator := (v.oscillator.setFrequency frequency).reset
    envelope := v.envelope.noteOn }

/-- `Voice::note_off`. -/
def Voice.noteOff (v : Voice) : Voice :=
  { v with envelope := v.envelope.noteOff }

/-- `Voice::is_active`: delegates to the envelope. -/
def Voice.isActive (v : Voice) : Bool :=
  v.envelope.isActive

/-! ## Voice pool (src/audio/voice_pool.rs) -/

/-- `MAX_VOICES`. -/
def MAX_VOICES : ℕ := 16

/-- `VoiceState`: allocation state of one pool slot. -/
inductive VoiceState
  | idle
  | active (note : ℕ)
deriving DecidableEq, Repr

/-- `PoolVoice`: a voice plus its allocation state and age counter. -/
structure PoolVoice where
  voice : Voice
  state : VoiceState
  age : ℕ
deriving DecidableEq, Repr

/-- `PoolVoice::new`. -/
def PoolVoice.new (sampleRate : ℚ) : PoolVoice :=
  { voice := Voice.new sampleRate, state := .idle, age := 0 }

instance : Inhabited PoolVoice := ⟨PoolVoice.new 44100⟩

/-- `PoolVoice::is_idle`. -/
def PoolVoice.isIdle (v : PoolVoice) : Bool :=
  match v.state with
  | .idle => true
  | _ => false

/-- `PoolVoice::is_active` (pool state, not envelope). -/
def PoolVoice.isActiveState (v : PoolVoice) : Bool :=
  match v.state with
  | .active _ => true
  | _ => false

/-- `PoolVoice::is_releasing`: pool state Active but the voice envelope is no
longer active. -/
def PoolVoice.isReleasing (v : PoolVoice) : Bool :=
  v.isActiveState && !v.voice.isActive

/-- `VoicePool`: sixteen pre-allocated voices plus the global age counter. -/
structure VoicePool where
  voices : List PoolVoice
  globalAge : ℕ
deriving DecidableEq, Repr

/-- `VoicePool::new`: sixteen idle voices. -/
def VoicePool.new (sampleRate : ℚ) : VoicePool :=
  { voices := List.replicate MAX_VOICES (PoolVoice.new sampleRate)
    globalAge := 0 }

/-- `Iterator::position`: index of the first element satisfying the
predicate. -/
def firstIdx {α : Type} (pred : α → Bool) : List α → Option ℕ
  | [] => none
  | a :: l => if pred a then some 0 else (firstIdx pred l).map (· + 1)

/-- `Iterator::min_by_key` over `enumerate`, keyed by age: loop keeping the
first strictly smallest age seen so far. -/
def minAgeIdxAux (i : ℕ) (best : ℕ × ℕ) : List PoolVoice → ℕ × ℕ
  | [] => best
  | v :: rest =>
      minAgeIdxAux (i + 1) (if v.age < best.2 then (i, v.age) else best) rest

/-- Index of the first voice with minimal age (`min_by_key` ties resolve to
the first element); `unwrap_or(0)` on an empty list. -/
def minAgeIdx : List PoolVoice → ℕ
  | [] => 0
  | v :: rest => (minAgeIdxAux 1 (0, v.age) rest).1

/-- `VoicePool::find_voice_for_note`: first idle slot, else first releasing
slot, else the slot with minimal age. -/
def VoicePool.findVoiceForNote (p : VoicePool) : ℕ :=
  match firstIdx PoolVoice.isIdle p.voices with
  | some idx => idx
  | none =>
    match firstIdx PoolVoice.isReleasing p.voices with
    | some idx => idx
    | none => minAgeIdx p.voices

/-- `VoicePool::note_on`: allocate (or steal) a slot, trigger its voice, mark
it active with the current global age, and bump the global age. -/
def VoicePool.noteOn (p : VoicePool) (note : ℕ) (frequency : ℚ) : VoicePool :=
  let voiceIdx := p.findVoiceForNote
  let poolVoice := p.voices.getD voiceIdx default
  let configured :=
    { poolVoice with
      voice := poolVoice.voice.noteOn frequency
      state := .active note
      age := p.globalAge }
  { voices := p.voices.set voiceIdx configured
    globalAge := p.globalAge + 1 }

/-- `VoicePool::note_off`: release every voice playing the note. -/
def VoicePool.noteOff (p : VoicePool) (note : ℕ) : VoicePool :=
  { p with
    voices := p.voices.map fun pv =>
      match pv.state with
      | .active activeNote =>
          if activeNote = note then { pv with voice := pv.voice.noteOff } else pv
      | .idle => pv }

/-- `VoicePool::all_notes_off`: release every active voice. -/
def VoicePool.allNotesOff (p : VoicePool) : VoicePool :=
  { p with
    voices := p.voices.map fun pv =>
      if pv.isActiveState then { pv with voice := pv.voice.noteOff } else pv }

/-! ## SynthEvent (src/types/events.rs) -/

/-- Modelled from the spec: `src/types/events.rs` in this snapshot is an older
revision whose `NoteOn` lacks the `note` field, yet every engine destructures
`SynthEvent::NoteOn { note, .. }` and the spec (section 3) mandates
`NoteOn{channel, note, frequency, velocity}`; the `note` field is therefore
included here. Channels and notes are byte values. -/
inductive SynthEvent
  | noteOn (channel : ℕ) (note : ℕ) (frequency : ℚ) (velocity : ℚ)
  | noteOff (channel : ℕ) (note : ℕ)
  | allNotesOff (channel : Option ℕ)
deriving DecidableEq, Repr

/-- `SynthEvent::channel`: the channel carried by the event, if any. -/
def SynthEvent.channel : SynthEvent → Option ℕ
  | .noteOn ch _ _ _ => some ch
  | .noteOff ch _ => some ch
  | .allNotesOff ch => ch

/-! ## MIDI message parser (src/midi/message.rs) -/

/-- `MidiMessage`: parsed MIDI messages of interest. -/
inductive MidiMessage
  | noteOn (channel note velocity : ℕ)
  | noteOff (channel note velocity : ℕ)
  | controlChange (channel controller value : ℕ)
  | unknown
deriving DecidableEq, Repr

/-- `MidiMessage::parse` over a slice of byte values (each `< 256`):
`status & 0xF0` is `status / 16 * 16` and `status & 0x0F` is `status % 16`
for bytes. -/
def MidiMessage.parse (bytes : List ℕ) : MidiMessage :=
  match bytes with
  | [] => .unknown
  | status :: rest =>
    let messageType := status / 16 * 16
    let channel := status % 16
    if messageType = 144 then
      match rest with
      | note :: velocity :: _ =>
          if velocity = 0 then .noteOff channel note 0
          else .noteOn channel note velocity
      | _ => .unknown
    else if messageType = 128 then
      match rest with
      | note :: velocity :: _ => .noteOff channel note velocity
      | _ => .unknown
    else if messageType = 176 then
      match rest with
      | controller :: value :: _ => .controlChange channel controller value
      | _ => .unknown
    else .unknown

/-- Modelled from the spec: `message.rs` builds the AllNotesOff event with a
zero-argument `SynthEvent::all_notes_off()` constructor that the `events.rs`
revision in this snapshot does not define; per spec section 4.I the broadcast
AllNotesOff carries no channel (`channel = None`). -/
def SynthEvent.allNotesOffBroadcast : SynthEvent := .allNotesOff none

/-- `MidiMessage::to_synth_event`: channel filtering (255 = omni) followed by
conversion. The note-to-frequency and velocity-to-amplitude maps (from
`src/types/note.rs`, transcendental) are passed as parameters. -/
def MidiMessage.toSynthEvent (noteToFreq velToAmp : ℕ → ℚ) :
    MidiMessage → ℕ → Option SynthEvent
  | .noteOn channel note velocity, channelFilter =>
      if channelFilter ≠ 255 ∧ channel ≠ channelFilter then none
      else some (.noteOn channel note (noteToFreq note) (velToAmp velocity))
  | .noteOff channel note _, channelFilter =>
      if channelFilter ≠ 255 ∧ channel ≠ channelFilter then none
      else some (.noteOff channel note)
  | .controlChange channel controller _, channelFilter =>
      if channelFilter ≠ 255 ∧ channel ≠ channelFilter then none
      else if controller = 123 then some SynthEvent.allNotesOffBroadcast
      else none
  | .unknown, _ => none

/-! ## CV voice (src/instruments/cv/voice.rs) -/

/-- `CVVoice`: monophonic CV generator with note stack, glide and gate. -/
structure CVVoice where
  sampleRate : ℚ
  noteStack : List ℕ
  noteStackCapacity : ℕ
  currentPitch : ℚ
  targetPitch : ℚ
  transpose : ℤ
  glideTime : ℚ
  glideStep : ℚ
  glideSamplesLeft : ℚ
  gateHigh : Bool
deriving DecidableEq, Repr

/-- `CVVoice::new`. -/
def CVVoice.new (sampleRate : ℚ) : CVVoice :=
  { sampleRate := sampleRate
    noteStack := []
    noteStackCapacity := 16
    currentPitch := 0
    targetPitch := 0
    transpose := 0
    glideTime := 0
    glideStep := 0
    glideSamplesLeft := 0
    gateHigh := false }

/-- `CVVoice::note_to_voltage`: `(note + transpose).clamp(0,127)` mapped to
`(x - 60)/120`. -/
def CVVoice.noteToVoltage (note : ℕ) (transpose : ℤ) : ℚ :=
  let transposedNote := min 127 (max 0 ((note : ℤ) + transpose))
  ((transposedNote : ℚ) - 60) / 120

/-- `CVVoice::start_glide`. -/
def CVVoice.startGlide (v : CVVoice) : CVVoice :=
  let distance := v.targetPitch - v.currentPitch
  if v.glideTime ≤ 0 ∨ |distance| < 1/10000 then
    { v with currentPitch := v.targetPitch, glideStep := 0, glideSamplesLeft := 0 }
  else
    let totalSamples := v.glideTime * v.sampleRate
    { v with glideStep := distance / totalSamples, glideSamplesLeft := totalSamples }

/-- The note-stack update at the top of `CVVoice::note_on`: push if absent,
replacing index 0 when the stack is full. -/
def CVVoice.pushNote (v : CVVoice) (note : ℕ) : CVVoice :=
  if v.noteStack.contains note then v
  else if v.noteStack.length < v.noteStackCapacity then
    { v with noteStack := v.noteStack ++ [note] }
  else
    { v with noteStack := v.noteStack.set 0 note }

/-- `CVVoice::note_on`. -/
def CVVoice.noteOn (v : CVVoice) (note : ℕ) : CVVoice :=
  let pushed := v.pushNote note
  let targeted := { pushed with targetPitch := CVVoice.noteToVoltage note pushed.transpose }
  let glided :=
    if targeted.gateHigh = false then
      { targeted with currentPitch := targeted.targetPitch, glideSamplesLeft := 0 }
    else
      targeted.startGlide
  { glided with gateHigh := true }

/-- `CVVoice::note_off`. -/
def CVVoice.noteOff (v : CVVoice) (note : ℕ) : CVVoice :=
  let retained := { v with noteStack := v.noteStack.filter (fun n => n ≠ note) }
  if retained.noteStack.isEmpty then { retained with gateHigh := false }
  else
    match retained.noteStack.getLast? with
    | some lastNote =>
        ({ retained with
            targetPitch := CVVoice.noteToVoltage lastNote retained.transpose }).startGlide
    | none => retained

/-- `CVVoice::all_notes_off`. -/
def CVVoice.allNotesOff (v : CVVoice) : CVVoice :=
  { v with noteStack := [], gateHigh := false }

/-- `CVVoice::set_glide_time`. -/
def CVVoice.setGlideTime (v : CVVoice) (time : ℚ) : CVVoice :=
  { v with glideTime := time }

/-- `CVVoice::next_pitch_sample`: advance the linear glide, snapping to the
target when the remaining sample count drops to 0 or below. -/
def CVVoice.nextPitchSample (v : CVVoice) : CVVoice × ℚ :=
  let advanced :=
    if 0 < v.glideSamplesLeft then
      let moved :=
        { v with
          currentPitch := v.currentPitch + v.glideStep
          glideSamplesLeft := v.glideSamplesLeft - 1 }
      if moved.glideSamplesLeft ≤ 0 then
        { moved with currentPitch := moved.targetPitch }
      else moved
    else v
  (advanced, advanced.currentPitch)

/-- Iterate `next_pitch_sample`, keeping only the state. -/
def CVVoice.pitchSamples (v : CVVoice) : ℕ → CVVoice
  | 0 => v
  | n + 1 => (CVVoice.pitchSamples v n).nextPitchSample.1

/-! ## Engine channel filtering and event dispatch
(src/instruments/poly16/engine.rs, src/instruments/drums/engine.rs,
src/instruments/cv/engine.rs) -/

/-- `SynthEngine::should_process_event`. -/
def SynthEngine.shouldProcessEvent (midiChannelFilter : ℕ) (event : SynthEvent) :
    Bool :=
  if midiChannelFilter = 255 then true
  else
    match event.channel with
    | some ch => ch == midiChannelFilter
    | none => true

/-- `DrumEngine::should_process_event` (textually identical logic). -/
def DrumEngine.shouldProcessEvent (midiChannelFilter : ℕ) (event : SynthEvent) :
    Bool :=
  if midiChannelFilter = 255 then true
  else
    match event.channel with
    | some ch => ch == midiChannelFilter
    | none => true

/-- `CVEngine::should_process_event` (textually identical logic). -/
def CVEngine.shouldProcessEvent (midiChannelFilter : ℕ) (event : SynthEvent) :
    Bool :=
  if midiChannelFilter = 255 then true
  else
    match event.channel with
    | some ch => ch == midiChannelFilter
    | none => true

/-- The event dispatch of `SynthEngine::process` for one accepted event. -/
def SynthEngine.applyEvent (pool : VoicePool) : SynthEvent → VoicePool
  | .noteOn _ note frequency _ => pool.noteOn note frequency
  | .noteOff _ note => pool.noteOff note
  | .allNotesOff _ => pool.allNotesOff

/-- One iteration of the event-drain loop in `SynthEngine::process`: rejected
events are skipped (`continue`). -/
def SynthEngine.handleEvent (midiChannelFilter : ℕ) (pool : VoicePool)
    (event : SynthEvent) : VoicePool :=
  if SynthEngine.shouldProcessEvent midiChannelFilter event then
    SynthEngine.applyEvent pool event
  else pool

/-- One iteration of the event-drain loop in `DrumEngine::process`, generic in
the drum voice type: NoteOn on the trigger note fires the voice, NoteOff and
AllNotesOff are ignored, rejected events are skipped. -/
def DrumEngine.handleEvent {V : Type} (trigger : V → V)
    (midiChannelFilter triggerNote : ℕ) (voice : V) (event : SynthEvent) : V :=
  if DrumEngine.shouldProcessEvent midiChannelFilter event then
    match event with
    | .noteOn _ note _ _ => if note = triggerNote then trigger voice else voice
    | .noteOff _ _ => voice
    | .allNotesOff _ => voice
  else voice

/-- One iteration of the event-drain loop in
`CVEngine::process_dual_channel`. -/
def CVEngine.handleEvent (midiChannelFilter : ℕ) (voice : CVVoice)
    (event : SynthEvent) : CVVoice :=
  if CVEngine.shouldProcessEvent midiChannelFilter event then
    match event with
    | .noteOn _ note _ _ => voice.noteOn note
    | .noteOff _ note => voice.noteOff note
    | .allNotesOff _ => voice.allNotesOff
  else voice

/-! ## Noise generator (src/dsp/noise.rs) -/

/-- `NoiseGenerator`: 32-bit LCG state (kept reduced modulo `2^32`). -/
structure NoiseGenerator where
  state : ℕ
deriving DecidableEq, Repr

/-- `NoiseGenerator::new`: fixed default seed `0x12345678`. -/
def NoiseGenerator.new : NoiseGenerator := { state := 0x12345678 }

/-- `NoiseGenerator::next_sample`: wrapping LCG step, output scaled into
`[-1, 1]`. -/
def NoiseGenerator.nextSample (n : NoiseGenerator) : NoiseGenerator × ℚ :=
  let newState := (n.state * 1664525 + 1013904223) % 2 ^ 32
  ({ state := newState }, ((newState : ℚ) / ((2 ^ 32 - 1 : ℕ) : ℚ)) * 2 - 1)

/-! ## Kick drum (src/instruments/drums/kick.rs)

The drums import `crate::dsp::envelope::Envelope`; `src/dsp/envelope.rs` is
absent from this snapshot, so the envelope is modelled from the spec
(section 4.B), whose ADSR state machine coincides with the
`src/audio/envelope.rs` implementation embedded above; the claim sources also
point at `src/audio/envelope.rs`. Likewise `dsp::vca` is modelled by the
`src/audio/vca.rs` implementation. -/

/-- `KickDrum` built by `KickDrum::new` (no parameter block): swept sine plus
noise click, three envelopes. -/
structure KickDrum where
  oscillator : Oscillator
  pitchEnvelope : Envelope
  ampEnvelope : Envelope
  clickEnvelope : Envelope
  noise : NoiseGenerator
  vca : VCA
  baseFrequency : ℚ
  startFrequency : ℚ
  clickAmount : ℚ
deriving DecidableEq, Repr

/-- `KickDrum::new`: sine oscillator; pitch envelope ADSR (0, 0.05, 0, 0);
amp envelope (0.001, 0.3, 0, 0); click envelope (0, 0.005, 0, 0). -/
def KickDrum.new (sampleRate : ℚ) : KickDrum :=
  { oscillator := (Oscillator.new sampleRate).setWaveform .sine
    pitchEnvelope := (Envelope.new sampleRate).setAdsr 0 (1/20) 0 0
    ampEnvelope := (Envelope.new sampleRate).setAdsr (1/1000) (3/10) 0 0
    clickEnvelope := (Envelope.new sampleRate).setAdsr 0 (1/200) 0 0
    noise := NoiseGenerator.new
    vca := VCA.new
    baseFrequency := 50
    startFrequency := 180
    clickAmount := 3/10 }

/-- `KickDrum::trigger`: reset the oscillator and start all three envelopes
(`note_off` is never called; the comment relies on sustain = 0 for one-shot
behaviour). -/
def KickDrum.trigger (k : KickDrum) : KickDrum :=
  { k with
    oscillator := k.oscillator.reset
    pitchEnvelope := k.pitchEnvelope.noteOn
    ampEnvelope := k.ampEnvelope.noteOn
    clickEnvelope := k.clickEnvelope.noteOn }

/-- `KickDrum::is_active`: exactly the amplitude envelope's activity. -/
def KickDrum.isActive (k : KickDrum) : Bool :=
  k.ampEnvelope.isActive

/-- `KickDrum::next_sample`, with the waveform evaluation abstracted by
`gen`: pitch sweep, oscillator tone, noise click, then the amplitude envelope
through the VCA. -/
def KickDrum.nextSample (gen : Waveform → ℚ → ℚ) (k : KickDrum) :
    KickDrum × ℚ :=
  let pitchStep := k.pitchEnvelope.nextSample
  let frequency := k.baseFrequency + (k.startFrequency - k.baseFrequency) * pitchStep.2
  let oscStep := (k.oscillator.setFrequency frequency).nextSample gen
  let clickStep := k.clickEnvelope.nextSample
  let noiseStep := k.noise.nextSample
  let clickTransient := noiseStep.2 * clickStep.2 * k.clickAmount
  let mixed := oscStep.2 + clickTransient
  let ampStep := k.ampEnvelope.nextSample
  ({ k with
      oscillator := oscStep.1
      pitchEnvelope := pitchStep.1
      ampEnvelope := ampStep.1
      clickEnvelope := clickStep.1
      noise := noiseStep.1 },
    k.vca.process mixed ampStep.2)

/-- Iterate `KickDrum.nextSample`, keeping only the state. -/
def KickDrum.run (gen : Waveform → ℚ → ℚ) (k : KickDrum) : ℕ → KickDrum
  | 0 => k
  | n + 1 => (KickDrum.run gen k n).nextSample gen |>.1

/-! ## Multi-engine mixer (src/audio/multi_engine.rs)

`MultiEngineSynth::process` drains events, renders every instance into
per-callback scratch buffers and adds each buffer into the instance's
interleaved output channel. The per-instance rendered buffers are abstracted
as functions from frame index to sample value (the routing logic under study
is independent of their contents); the interleaved output buffer is a
function from slot index to sample value. -/

/-- An instance as the mixer loop sees it: its assigned channel, whether it is
a dual-channel CV instance, and its rendered buffer contents. -/
structure MixInstance where
  audioChannel : ℕ
  usesDualChannel : Bool
  pitchOut : ℕ → ℚ
  gateOut : ℕ → ℚ

/-- The `for frame_idx in 0..frames { output[frame_idx*nc + ch] += data[frame_idx] }`
loop. -/
def mixLoop (nc ch : ℕ) (data : ℕ → ℚ) (out : ℕ → ℚ) : ℕ → (ℕ → ℚ)
  | 0 => out
  | f + 1 =>
      let prev := mixLoop nc ch data out f
      Function.update prev (f * nc + ch) (prev (f * nc + ch) + data f)

/-- Mixing of a single instance into the interleaved output: dual-channel
instances add pitch into channel `N` and gate into channel `N+1`, others add
their buffer into their channel; each add is guarded by the channel being in
range. -/
def mixInstance (nc frames : ℕ) (out : ℕ → ℚ) (inst : MixInstance) : ℕ → ℚ :=
  if inst.usesDualChannel then
    let afterPitch :=
      if inst.audioChannel < nc then
        mixLoop nc inst.audioChannel inst.pitchOut out frames
      else out
    if inst.audioChannel + 1 < nc then
      mixLoop nc (inst.audioChannel + 1) inst.gateOut afterPitch frames
    else afterPitch
  else
    if inst.audioChannel < nc then
      mixLoop nc inst.audioChannel inst.pitchOut out frames
    else out

/-- `MultiEngineSynth::process`: `frames = output.len() / num_channels`, the
output buffer is zeroed, then every instance is mixed in order. -/
def MultiEngineSynth.process (instances : List MixInstance)
    (outputLen numChannels : ℕ) : ℕ → ℚ :=
  let frames := outputLen / numChannels
  instances.foldl (mixInstance numChannels frames) (fun _ => 0)

/-- Heap allocations performed by one `vec![0.0f32; n]` expression: Rust's
`Vec` allocates one buffer when `n > 0` and performs no allocation when
`n = 0`. -/
def vecAllocs (n : ℕ) : ℕ :=
  if 0 < n then 1 else 0

/-- `MultiEngineSynth::process` instrumented with a counter for its
scratch-buffer heap allocations only: the body executes
`vec![0.0f32; frames]` twice (the `pitch_buffer` and `gate_buffer`
temporaries) on every invocation, before the instance loop. The event
broadcast that precedes them sends into crossbeam unbounded channels, whose
`try_send` may heap-allocate further blocks; those allocations are outside
this counter, so the count here is a lower bound on the callback's total
heap allocations. -/
def MultiEngineSynth.processScratchAllocs (instances : List MixInstance)
    (outputLen numChannels : ℕ) : (ℕ → ℚ) × ℕ :=
  let frames := outputLen / numChannels
  (instances.foldl (mixInstance numChannels frames) (fun _ => 0),
    vecAllocs frames + vecAllocs frames)

/-! ## Theorems -/

/-- C10: `Waveform::from_u8` is total, mapping 1/2/3 to
Triangle/Sawtooth/Square and every other byte to Sine, and it inverts
`to_u8`. -/
theorem waveform_fromU8_total_and_roundtrip :
    (∀ v : ℕ, Waveform.fromU8 v =
      if v = 1 then Waveform.triangle
      else if v = 2 then Waveform.sawtooth
      else if v = 3 then Waveform.square
      else Waveform.sine) ∧
    ∀ w : Waveform, Waveform.fromU8 w.toU8 = w := by
  refine ⟨fun v => ?_, fun w => ?_⟩
  · match v with
    | 0 => rfl
    | 1 => rfl
    | 2 => rfl
    | 3 => rfl
    | n + 4 => rfl
  · cases w <;> rfl

/-- C9 counterexample: a concrete invocation of `MultiEngineSynth::process`
(any invocation is in steady state, the instance list being fixed at
construction) performs scratch-buffer heap allocations, not zero. -/
theorem mixer_allocations_not_zero :
    (MultiEngineSynth.processScratchAllocs [] 512 2).2 ≠ 0 := by decide

/-- C9 amended: the mixer audio callback is not allocation-free — on every
invocation with a nonzero frame count it freshly heap-allocates its two
scratch vectors (`pitch_buffer` and `gate_buffer`), rather than reusing
pre-sized buffers. -/
theorem mixer_not_allocation_free (instances : List MixInstance)
    (outputLen numChannels : ℕ) (h : 0 < outputLen / numChannels) :
    (MultiEngineSynth.processScratchAllocs instances outputLen
        numChannels).2 = 2 ∧
    (MultiEngineSynth.processScratchAllocs instances outputLen
        numChannels).2 ≠ 0 := by
  have h2 : vecAllocs (outputLen / numChannels) = 1 := by
    unfold vecAllocs
    rw [if_pos h]
  constructor
  · show vecAllocs (outputLen / numChannels) +
      vecAllocs (outputLen / numChannels) = 2
    rw [h2]
  · show vecAllocs (outputLen / numChannels) +
      vecAllocs (outputLen / numChannels) ≠ 0
    rw [h2]
    omega

/-- C9 amended witness: a 256-frame stereo callback with no instances. -/
theorem mixer_not_allocation_free_witness :
    (MultiEngineSynth.processScratchAllocs [] 512 2).2 = 2 ∧
    (MultiEngineSynth.processScratchAllocs [] 512 2).2 ≠ 0 :=
  mixer_not_allocation_free [] 512 2 (by norm_num)

/-- C7: the CV note-to-voltage map sends 60 to 0, 72 to 0.1 and 48 to -0.1,
and applying a transpose equals transposing the note first (for any
transposed note representable as a byte). -/
theorem cv_note_to_voltage_values :
    CVVoice.noteToVoltage 60 0 = 0 ∧
    CVVoice.noteToVoltage 72 0 = 1/10 ∧
    CVVoice.noteToVoltage 48 0 = -(1/10) ∧
    ∀ (n : ℕ) (t : ℤ), 0 ≤ (n : ℤ) + t → (n : ℤ) + t ≤ 255 →
      CVVoice.noteToVoltage n t = CVVoice.noteToVoltage ((n : ℤ) + t).toNat 0 := by
  refine ⟨by norm_num [CVVoice.noteToVoltage], by norm_num [CVVoice.noteToVoltage],
    by norm_num [CVVoice.noteToVoltage], fun n t h0 h255 => ?_⟩
  simp only [CVVoice.noteToVoltage, Int.toNat_of_nonneg h0, add_zero]

/-- C7 witness: transposing C4 up an octave lands on C5. -/
theorem cv_note_to_voltage_values_witness :
    CVVoice.noteToVoltage 60 12 = CVVoice.noteToVoltage ((60 : ℤ) + 12).toNat 0 :=
  cv_note_to_voltage_values.2.2.2 60 12 (by norm_num) (by norm_num)

/-- C5: the MIDI parser rewrites NoteOn with velocity 0 as NoteOff, returns
Unknown for 0x9/0x8/0xB messages shorter than 3 bytes and for every other
status nibble, and converts a parsed CC 123 that passes the channel filter
into an AllNotesOff synth event. -/
theorem midi_parse_behaviour :
    (∀ (s n v : ℕ) (rest : List ℕ), s < 256 → s / 16 = 9 → v = 0 →
      MidiMessage.parse (s :: n :: v :: rest) = .noteOff (s % 16) n 0) ∧
    (∀ s : ℕ, s < 256 → (s / 16 = 9 ∨ s / 16 = 8 ∨ s / 16 = 11) →
      MidiMessage.parse [s] = .unknown ∧
      ∀ n : ℕ, MidiMessage.parse [s, n] = .unknown) ∧
    (∀ (s : ℕ) (rest : List ℕ), s < 256 →
      s / 16 ≠ 9 → s / 16 ≠ 8 → s / 16 ≠ 11 →
      MidiMessage.parse (s :: rest) = .unknown) ∧
    (∀ (noteToFreq velToAmp : ℕ → ℚ) (ch value filt : ℕ),
      filt = 255 ∨ ch = filt →
      MidiMessage.toSynthEvent noteToFreq velToAmp
        (.controlChange ch 123 value) filt = some (SynthEvent.allNotesOff none)) := by
  refine ⟨fun s n v rest hs h9 hv => ?_, fun s hs h98b => ?_,
    fun s rest hs h9 h8 hb => ?_, fun noteToFreq velToAmp ch value filt hfilt => ?_⟩
  · subst hv
    simp [MidiMessage.parse, h9]
  · refine ⟨?_, fun n => ?_⟩ <;>
      · simp only [MidiMessage.parse]
        split_ifs <;> rfl
  · have h144 : s / 16 * 16 ≠ 144 := by omega
    have h128 : s / 16 * 16 ≠ 128 := by omega
    have h176 : s / 16 * 16 ≠ 176 := by omega
    simp only [MidiMessage.parse, h144, h128, h176, if_false]
  · rcases hfilt with h | h <;> subst h <;>
      simp [MidiMessage.toSynthEvent, SynthEvent.allNotesOffBroadcast]

/-- C5 witness: concrete parses and a concrete CC 123 conversion. -/
theorem midi_parse_behaviour_witness :
    MidiMessage.parse (147 :: 60 :: 0 :: []) = .noteOff (147 % 16) 60 0 ∧
    MidiMessage.parse [147] = .unknown ∧
    MidiMessage.parse (112 :: [1, 2, 3]) = .unknown ∧
    MidiMessage.toSynthEvent (fun _ => 0) (fun _ => 0)
      (.controlChange 3 123 7) 255 = some (SynthEvent.allNotesOff none) :=
  ⟨midi_parse_behaviour.1 147 60 0 [] (by norm_num) (by norm_num) rfl,
   (midi_parse_behaviour.2.1 147 (by norm_num) (Or.inl (by norm_num))).1,
   midi_parse_behaviour.2.2.1 112 [1, 2, 3] (by norm_num) (by norm_num)
     (by norm_num) (by norm_num),
   midi_parse_behaviour.2.2.2 (fun _ => 0) (fun _ => 0) 3 7 255 (Or.inl rfl)⟩

/-- C8: for each engine (synth, drum, CV) an event is accepted exactly when
the filter is 255, or the event carries the filter's channel, or the event is
AllNotesOff with no channel; a rejected event leaves the engine's voice state
unchanged. -/
theorem engine_channel_filter :
    (∀ (filt : ℕ) (e : SynthEvent),
      SynthEngine.shouldProcessEvent filt e = true ↔
        filt = 255 ∨ e.channel = some filt ∨ e = .allNotesOff none) ∧
    (∀ (filt : ℕ) (e : SynthEvent),
      DrumEngine.shouldProcessEvent filt e = true ↔
        filt = 255 ∨ e.channel = some filt ∨ e = .allNotesOff none) ∧
    (∀ (filt : ℕ) (e : SynthEvent),
      CVEngine.shouldProcessEvent filt e = true ↔
        filt = 255 ∨ e.channel = some filt ∨ e = .allNotesOff none) ∧
    (∀ (filt : ℕ) (pool : VoicePool) (e : SynthEvent),
      SynthEngine.shouldProcessEvent filt e = false →
      SynthEngine.handleEvent filt pool e = pool) ∧
    (∀ (V : Type) (trigger : V → V) (filt triggerNote : ℕ) (voice : V)
        (e : SynthEvent),
      DrumEngine.shouldProcessEvent filt e = false →
      DrumEngine.handleEvent trigger filt triggerNote voice e = voice) ∧
    (∀ (filt : ℕ) (voice : CVVoice) (e : SynthEvent),
      CVEngine.shouldProcessEvent filt e = false →
      CVEngine.handleEvent filt voice e = voice) := by
  have hiff : ∀ (filt : ℕ) (e : SynthEvent),
      (if filt = 255 then true
        else match e.channel with
          | some ch => ch == filt
          | none => true) = true ↔
        filt = 255 ∨ e.channel = some filt ∨ e = .allNotesOff none := by
    intro filt e
    by_cases hf : filt = 255
    · simp [hf]
    · cases e with
      | noteOn ch note fr vel => simp [SynthEvent.channel, hf]
      | noteOff ch note => simp [SynthEvent.channel, hf]
      | allNotesOff ch =>
          cases ch with
          | none => simp [SynthEvent.channel, hf]
          | some c => simp [SynthEvent.channel, hf]
  refine ⟨fun filt e => hiff filt e, fun filt e => hiff filt e,
    fun filt e => hiff filt e, fun filt pool e h => ?_,
    fun V trigger filt tn voice e h => ?_, fun filt voice e h => ?_⟩
  · simp [SynthEngine.handleEvent, h]
  · simp [DrumEngine.handleEvent, h]
  · simp [CVEngine.handleEvent, h]

/-- C8 witness: each engine with filter 3 rejects a channel-5 event and its
voice state is unchanged. -/
theorem engine_channel_filter_witness :
    SynthEngine.handleEvent 3 (VoicePool.new 44100) (.noteOn 5 60 440 1) =
      VoicePool.new 44100 ∧
    DrumEngine.handleEvent KickDrum.trigger 3 36 (KickDrum.new 44100)
      (.noteOn 5 36 65 1) = KickDrum.new 44100 ∧
    CVEngine.handleEvent 3 (CVVoice.new 44100) (.noteOn 5 60 440 1) =
      CVVoice.new 44100 :=
  ⟨engine_channel_filter.2.2.2.1 3 (VoicePool.new 44100) (.noteOn 5 60 440 1)
      (by decide),
   engine_channel_filter.2.2.2.2.1 KickDrum KickDrum.trigger 3 36
      (KickDrum.new 44100) (.noteOn 5 36 65 1) (by decide),
   engine_channel_filter.2.2.2.2.2 3 (CVVoice.new 44100) (.noteOn 5 60 440 1)
      (by decide)⟩

/-! ### CV glide lemmas -/

lemma CVVoice.pitchSamples_add (v : CVVoice) (a b : ℕ) :
    v.pitchSamples (a + b) = (v.pitchSamples a).pitchSamples b := by
  induction b with
  | zero => rfl
  | succ b ih =>
      show v.pitchSamples (a + b + 1) = _
      rw [CVVoice.pitchSamples, ih]
      rfl

lemma CVVoice.nextPitch_noSnap (w : CVVoice) (h1 : 0 < w.glideSamplesLeft)
    (h2 : ¬ w.glideSamplesLeft - 1 ≤ 0) :
    w.nextPitchSample.1 =
      { w with
        currentPitch := w.currentPitch + w.glideStep
        glideSamplesLeft := w.glideSamplesLeft - 1 } := by
  simp [CVVoice.nextPitchSample, h1, h2]

lemma CVVoice.nextPitch_snap (w : CVVoice) (h1 : 0 < w.glideSamplesLeft)
    (h2 : w.glideSamplesLeft - 1 ≤ 0) :
    w.nextPitchSample.1 =
      { w with
        currentPitch := w.targetPitch
        glideSamplesLeft := w.glideSamplesLeft - 1 } := by
  simp [CVVoice.nextPitchSample, h1, h2]

lemma CVVoice.glide_run (v : CVVoice) :
    ∀ k : ℕ, (k : ℚ) < v.glideSamplesLeft →
      (v.pitchSamples k).currentPitch = v.currentPitch + k * v.glideStep ∧
      (v.pitchSamples k).glideSamplesLeft = v.glideSamplesLeft - k ∧
      (v.pitchSamples k).glideStep = v.glideStep ∧
      (v.pitchSamples k).targetPitch = v.targetPitch := by
  intro k
  induction k with
  | zero =>
      intro _
      refine ⟨?_, ?_, rfl, rfl⟩
      · show v.currentPitch = _
        simp
      · show v.glideSamplesLeft = _
        simp
  | succ k ih =>
      intro hk1
      have hk : (k : ℚ) < v.glideSamplesLeft := by
        push_cast at hk1
        linarith
      obtain ⟨hcur, hleft, hstep, htgt⟩ := ih hk
      have hpos : 0 < (v.pitchSamples k).glideSamplesLeft := by
        rw [hleft]; linarith
      have hnosnap :
          ¬ (v.pitchSamples k).glideSamplesLeft - 1 ≤ 0 := by
        rw [hleft]
        push_cast at hk1
        linarith
      have hone : v.pitchSamples (k + 1) = (v.pitchSamples k).nextPitchSample.1 := rfl
      rw [hone, CVVoice.nextPitch_noSnap _ hpos hnosnap]
      refine ⟨?_, ?_, hstep, htgt⟩
      · show (v.pitchSamples k).currentPitch + (v.pitchSamples k).glideStep = _
        rw [hcur, hstep]
        push_cast
        ring
      · show (v.pitchSamples k).glideSamplesLeft - 1 = _
        rw [hleft]
        push_cast
        ring

lemma CVVoice.glide_snap (v : CVVoice) (k : ℕ)
    (hk : (k : ℚ) < v.glideSamplesLeft)
    (hk1 : v.glideSamplesLeft ≤ (k : ℚ) + 1) :
    (v.pitchSamples (k + 1)).currentPitch = v.targetPitch ∧
    (v.pitchSamples (k + 1)).glideSamplesLeft ≤ 0 ∧
    (v.pitchSamples (k + 1)).targetPitch = v.targetPitch := by
  obtain ⟨hcur, hleft, hstep, htgt⟩ := v.glide_run k hk
  have hpos : 0 < (v.pitchSamples k).glideSamplesLeft := by
    rw [hleft]; linarith
  have hsnap : (v.pitchSamples k).glideSamplesLeft - 1 ≤ 0 := by
    rw [hleft]; linarith
  have hone : v.pitchSamples (k + 1) = (v.pitchSamples k).nextPitchSample.1 := rfl
  rw [hone, CVVoice.nextPitch_snap _ hpos hsnap]
  refine ⟨htgt, ?_, htgt⟩
  show (v.pitchSamples k).glideSamplesLeft - 1 ≤ 0
  exact hsnap

lemma CVVoice.glide_stopped_run (v : CVVoice) (h : v.glideSamplesLeft ≤ 0) :
    ∀ m : ℕ, v.pitchSamples m = v := by
  intro m
  induction m with
  | zero => rfl
  | succ m ih =>
      show (v.pitchSamples m).nextPitchSample.1 = v
      rw [ih]
      simp [CVVoice.nextPitchSample, not_lt.mpr h]

lemma CVVoice.gate_update_self (g : CVVoice) (h : g.gateHigh = true) :
    { g with gateHigh := true } = g := by
  cases g
  simp only at h
  simp [h]

lemma CVVoice.pushNote_fields (v : CVVoice) (note : ℕ) :
    (v.pushNote note).gateHigh = v.gateHigh ∧
    (v.pushNote note).transpose = v.transpose := by
  unfold CVVoice.pushNote
  split_ifs <;> exact ⟨rfl, rfl⟩

lemma CVVoice.startGlide_gateHigh (w : CVVoice) :
    w.startGlide.gateHigh = w.gateHigh := by
  unfold CVVoice.startGlide
  dsimp only
  split <;> rfl

/-- C6: a note_on while the gate is low snaps to the target; a legato note_on
starts a glide; the snap cases of start_glide; and a real glide advances by
the constant per-sample step `(target - current)/(glide_time * sr)`, reaching
the target exactly once `glide_time * sr` samples have elapsed. -/
theorem cv_glide_behaviour (v : CVVoice) (note : ℕ) :
    (v.gateHigh = false →
      (v.noteOn note).currentPitch = (v.noteOn note).targetPitch ∧
      (v.noteOn note).glideSamplesLeft = 0) ∧
    (v.gateHigh = true →
      v.noteOn note =
        ({ v.pushNote note with
            targetPitch := CVVoice.noteToVoltage note v.transpose }).startGlide) ∧
    ((v.glideTime ≤ 0 ∨ |v.targetPitch - v.currentPitch| < 1/10000) →
      v.startGlide.currentPitch = v.startGlide.targetPitch ∧
      v.startGlide.glideSamplesLeft = 0) ∧
    (0 < v.glideTime → 1/10000 ≤ |v.targetPitch - v.currentPitch| →
        0 < v.sampleRate →
      v.startGlide.glideStep =
        (v.targetPitch - v.currentPitch) / (v.glideTime * v.sampleRate) ∧
      (∀ k : ℕ, (k : ℚ) + 1 < v.glideTime * v.sampleRate →
        (v.startGlide.pitchSamples (k + 1)).currentPitch =
          (v.startGlide.pitchSamples k).currentPitch + v.startGlide.glideStep) ∧
      ∀ m : ℕ, ⌈v.glideTime * v.sampleRate⌉₊ ≤ m →
        (v.startGlide.pitchSamples m).currentPitch = v.targetPitch) := by
  refine ⟨fun hgate => ?_, fun hgate => ?_, fun hsnap => ?_,
    fun hgt hdist hsr => ?_⟩
  · have hpg : (v.pushNote note).gateHigh = v.gateHigh :=
      (v.pushNote_fields note).1
    simp only [CVVoice.noteOn]
    split_ifs with h
    · exact ⟨rfl, rfl⟩
    · exact absurd (show (v.pushNote note).gateHigh = false from hpg.trans hgate) h
  · have hpg : (v.pushNote note).gateHigh = v.gateHigh :=
      (v.pushNote_fields note).1
    have hpt : (v.pushNote note).transpose = v.transpose :=
      (v.pushNote_fields note).2
    simp only [CVVoice.noteOn]
    split_ifs with h
    · exact absurd (show (v.pushNote note).gateHigh = false from h)
        (by rw [hpg, hgate]; simp)
    · rw [hpt]
      refine CVVoice.gate_update_self _ ?_
      rw [CVVoice.startGlide_gateHigh]
      exact hpg.trans hgate
  · unfold CVVoice.startGlide
    rw [if_pos hsnap]
    exact ⟨rfl, rfl⟩
  · have hcond : ¬ (v.glideTime ≤ 0 ∨ |v.targetPitch - v.currentPitch| < 1/10000) := by
      push_neg
      exact ⟨hgt, hdist⟩
    have hw : v.startGlide =
        { v with
          glideStep := (v.targetPitch - v.currentPitch) / (v.glideTime * v.sampleRate)
          glideSamplesLeft := v.glideTime * v.sampleRate } := by
      unfold CVVoice.startGlide
      rw [if_neg hcond]
    have hT : (0 : ℚ) < v.glideTime * v.sampleRate := mul_pos hgt hsr
    have hleftw : v.startGlide.glideSamplesLeft = v.glideTime * v.sampleRate := by
      rw [hw]
    have hstepw : v.startGlide.glideStep =
        (v.targetPitch - v.currentPitch) / (v.glideTime * v.sampleRate) := by
      rw [hw]
    have htgtw : v.startGlide.targetPitch = v.targetPitch := by rw [hw]
    refine ⟨hstepw, fun k hk => ?_, fun m hm => ?_⟩
    · have hk1 : ((k + 1 : ℕ) : ℚ) < v.startGlide.glideSamplesLeft := by
        rw [hleftw]; push_cast; linarith
      have hk0 : ((k : ℕ) : ℚ) < v.startGlide.glideSamplesLeft := by
        rw [hleftw]; linarith
      obtain ⟨hc1, _, _, _⟩ := v.startGlide.glide_run (k + 1) hk1
      obtain ⟨hc0, _, _, _⟩ := v.startGlide.glide_run k hk0
      rw [hc1, hc0]
      push_cast
      ring
    · set T := v.glideTime * v.sampleRate with hTdef
      have hceil : 0 < ⌈T⌉₊ := Nat.ceil_pos.mpr hT
      set k0 := ⌈T⌉₊ - 1 with hk0def
      have hk0succ : k0 + 1 = ⌈T⌉₊ := by omega
      have hcast : ((⌈T⌉₊ : ℕ) : ℚ) = (k0 : ℚ) + 1 := by
        rw [← hk0succ]; push_cast; ring
      have hklt : (k0 : ℚ) < v.startGlide.glideSamplesLeft := by
        rw [hleftw]
        exact Nat.lt_ceil.mp (by omega)
      have hkge : v.startGlide.glideSamplesLeft ≤ (k0 : ℚ) + 1 := by
        rw [hleftw]
        have hle := Nat.le_ceil T
        rw [hcast] at hle
        exact hle
      obtain ⟨hcur, hleft, htgt⟩ := v.startGlide.glide_snap k0 hklt hkge
      have hsplit : m = (k0 + 1) + (m - (k0 + 1)) := by omega
      rw [hsplit, CVVoice.pitchSamples_add,
        CVVoice.glide_stopped_run _ hleft, hcur, htgtw]

/-- C6 witness: a concrete glide of 4 samples from pitch 0 to pitch 1/10
arrives exactly at the target. -/
theorem cv_glide_behaviour_witness :
    ((CVVoice.startGlide
        ⟨4, [60], 16, 0, 1/10, 0, 1, 0, 0, true⟩).pitchSamples 4).currentPitch =
      (1 : ℚ)/10 := by
  have h := (cv_glide_behaviour ⟨4, [60], 16, 0, 1/10, 0, 1, 0, 0, true⟩ 60).2.2.2
    (by norm_num)
    (by
      show (1 : ℚ)/10000 ≤ |(1 : ℚ)/10 - 0|
      rw [sub_zero, abs_of_nonneg (by norm_num : (0 : ℚ) ≤ 1/10)]
      norm_num)
    (by norm_num)
  exact h.2.2 4 (by norm_num [Nat.ceil_le])

/-! ### Mixer routing lemmas -/

lemma mixLoop_ne (nc ch : ℕ) (data out : ℕ → ℚ) (hch : ch < nc) (j : ℕ)
    (hj : j % nc ≠ ch) :
    ∀ frames, mixLoop nc ch data out frames j = out j := by
  intro frames
  induction frames with
  | zero => rfl
  | succ f ih =>
      have hne : j ≠ f * nc + ch := by
        intro he
        apply hj
        rw [he, Nat.add_comm, Nat.add_mul_mod_self_right, Nat.mod_eq_of_lt hch]
      show Function.update (mixLoop nc ch data out f) (f * nc + ch) _ j = out j
      rw [Function.update_noteq hne, ih]

lemma mixLoop_above (nc ch : ℕ) (data out : ℕ → ℚ) (hnc : 0 < nc) (f : ℕ) :
    ∀ frames, frames ≤ f →
      mixLoop nc ch data out frames (f * nc + ch) = out (f * nc + ch) := by
  intro frames
  induction frames with
  | zero => intro _; rfl
  | succ g ih =>
      intro hle
      have hne : f * nc + ch ≠ g * nc + ch := by
        intro he
        have hfg : f = g :=
          Nat.eq_of_mul_eq_mul_right hnc (Nat.add_right_cancel he)
        omega
      show Function.update (mixLoop nc ch data out g) (g * nc + ch) _ _ = _
      rw [Function.update_noteq hne, ih (by omega)]

lemma mixLoop_at (nc ch : ℕ) (data out : ℕ → ℚ) (hnc : 0 < nc) (f : ℕ) :
    ∀ frames, f < frames →
      mixLoop nc ch data out frames (f * nc + ch) =
        out (f * nc + ch) + data f := by
  intro frames
  induction frames with
  | zero => intro h; exact absurd h (Nat.not_lt_zero f)
  | succ g ih =>
      intro hlt
      by_cases hfg : f = g
      · subst hfg
        show Function.update (mixLoop nc ch data out f) (f * nc + ch) _ _ = _
        rw [Function.update_same, mixLoop_above nc ch data out hnc f f le_rfl]
      · have hne : f * nc + ch ≠ g * nc + ch := fun he =>
          hfg (Nat.eq_of_mul_eq_mul_right hnc (Nat.add_right_cancel he))
        show Function.update (mixLoop nc ch data out g) (g * nc + ch) _ _ = _
        rw [Function.update_noteq hne, ih (by omega)]

lemma mixInstance_untouched (nc frames : ℕ) (out : ℕ → ℚ) (inst : MixInstance)
    (j : ℕ) (hj : j % nc ≠ inst.audioChannel)
    (hdual : inst.usesDualChannel = true → j % nc ≠ inst.audioChannel + 1) :
    mixInstance nc frames out inst j = out j := by
  cases hdc : inst.usesDualChannel with
  | false =>
      simp only [mixInstance, hdc, Bool.false_eq_true, if_false]
      by_cases h1 : inst.audioChannel < nc
      · rw [if_pos h1, mixLoop_ne nc _ _ out h1 j hj]
      · rw [if_neg h1]
  | true =>
      simp only [mixInstance, hdc, if_true]
      by_cases h2 : inst.audioChannel + 1 < nc
      · rw [if_pos h2,
          mixLoop_ne nc _ _ _ h2 j (hdual hdc)]
        by_cases h1 : inst.audioChannel < nc
        · rw [if_pos h1, mixLoop_ne nc _ _ out h1 j hj]
        · rw [if_neg h1]
      · rw [if_neg h2]
        by_cases h1 : inst.audioChannel < nc
        · rw [if_pos h1, mixLoop_ne nc _ _ out h1 j hj]
        · rw [if_neg h1]

lemma mixInstance_out_of_range (nc frames : ℕ) (out : ℕ → ℚ)
    (inst : MixInstance) (j : ℕ) (h : nc ≤ inst.audioChannel) :
    mixInstance nc frames out inst j = out j := by
  have h1 : ¬ inst.audioChannel < nc := by omega
  have h2 : ¬ inst.audioChannel + 1 < nc := by omega
  cases hdc : inst.usesDualChannel with
  | false => simp only [mixInstance, hdc, Bool.false_eq_true, if_false, if_neg h1]
  | true => simp only [mixInstance, hdc, if_true, if_neg h1, if_neg h2]

lemma mixInstance_single_add (nc frames : ℕ) (out : ℕ → ℚ)
    (inst : MixInstance) (f : ℕ) (hdc : inst.usesDualChannel = false)
    (hch : inst.audioChannel < nc) (hf : f < frames) :
    mixInstance nc frames out inst (f * nc + inst.audioChannel) =
      out (f * nc + inst.audioChannel) + inst.pitchOut f := by
  simp only [mixInstance, hdc, Bool.false_eq_true, if_false, if_pos hch]
  exact mixLoop_at nc _ _ out (by omega) f frames hf

lemma mixInstance_dual_pitch_add (nc frames : ℕ) (out : ℕ → ℚ)
    (inst : MixInstance) (f : ℕ) (hdc : inst.usesDualChannel = true)
    (hch : inst.audioChannel < nc) (hf : f < frames) :
    mixInstance nc frames out inst (f * nc + inst.audioChannel) =
      out (f * nc + inst.audioChannel) + inst.pitchOut f := by
  have hmod : (f * nc + inst.audioChannel) % nc = inst.audioChannel := by
    rw [Nat.add_comm, Nat.add_mul_mod_self_right, Nat.mod_eq_of_lt hch]
  simp only [mixInstance, hdc, if_true, if_pos hch]
  by_cases h2 : inst.audioChannel + 1 < nc
  · rw [if_pos h2, mixLoop_ne nc _ _ _ h2 _ (by omega)]
    exact mixLoop_at nc _ _ out (by omega) f frames hf
  · rw [if_neg h2]
    exact mixLoop_at nc _ _ out (by omega) f frames hf

lemma mixInstance_dual_gate_add (nc frames : ℕ) (out : ℕ → ℚ)
    (inst : MixInstance) (f : ℕ) (hdc : inst.usesDualChannel = true)
    (hch : inst.audioChannel + 1 < nc) (hf : f < frames) :
    mixInstance nc frames out inst (f * nc + (inst.audioChannel + 1)) =
      out (f * nc + (inst.audioChannel + 1)) + inst.gateOut f := by
  have hch0 : inst.audioChannel < nc := by omega
  have hmod : (f * nc + (inst.audioChannel + 1)) % nc = inst.audioChannel + 1 := by
    rw [Nat.add_comm, Nat.add_mul_mod_self_right, Nat.mod_eq_of_lt hch]
  simp only [mixInstance, hdc, if_true, if_pos hch, if_pos hch0]
  rw [mixLoop_at nc _ _ _ (by omega) f frames hf,
    mixLoop_ne nc _ _ out hch0 _ (by omega)]

lemma mix_foldl_untouched (nc frames j : ℕ) :
    ∀ (instances : List MixInstance) (out : ℕ → ℚ),
      (∀ inst ∈ instances, j % nc ≠ inst.audioChannel ∧
        (inst.usesDualChannel = true → j % nc ≠ inst.audioChannel + 1)) →
      instances.foldl (mixInstance nc frames) out j = out j := by
  intro instances
  induction instances with
  | nil => intro out _; rfl
  | cons inst rest ih =>
      intro out hall
      have hrest := fun i hi => hall i (List.mem_cons_of_mem inst hi)
      have hinst := hall inst (List.mem_cons_self inst rest)
      show (rest.foldl (mixInstance nc frames) (mixInstance nc frames out inst)) j = out j
      rw [ih _ hrest, mixInstance_untouched nc frames out inst j hinst.1 hinst.2]

/-- C3: an instance adds its rendered samples only into the interleaved slots
of its assigned channel (or its channel and the next one for a dual-channel
CV instance); slots of other channels are not modified by it, an assigned
channel index not below the channel count makes the instance a no-op, and a
slot of a channel that no instance is routed to is left exactly zero by the
whole callback. -/
theorem mixer_channel_routing :
    (∀ (nc frames : ℕ) (out : ℕ → ℚ) (inst : MixInstance) (j : ℕ),
      j % nc ≠ inst.audioChannel →
      (inst.usesDualChannel = true → j % nc ≠ inst.audioChannel + 1) →
      mixInstance nc frames out inst j = out j) ∧
    (∀ (nc frames : ℕ) (out : ℕ → ℚ) (inst : MixInstance) (j : ℕ),
      nc ≤ inst.audioChannel → mixInstance nc frames out inst j = out j) ∧
    (∀ (nc frames : ℕ) (out : ℕ → ℚ) (inst : MixInstance) (f : ℕ),
      inst.usesDualChannel = false → inst.audioChannel < nc → f < frames →
      mixInstance nc frames out inst (f * nc + inst.audioChannel) =
        out (f * nc + inst.audioChannel) + inst.pitchOut f) ∧
    (∀ (nc frames : ℕ) (out : ℕ → ℚ) (inst : MixInstance) (f : ℕ),
      inst.usesDualChannel = true → inst.audioChannel < nc → f < frames →
      mixInstance nc frames out inst (f * nc + inst.audioChannel) =
        out (f * nc + inst.audioChannel) + inst.pitchOut f) ∧
    (∀ (nc frames : ℕ) (out : ℕ → ℚ) (inst : MixInstance) (f : ℕ),
      inst.usesDualChannel = true → inst.audioChannel + 1 < nc → f < frames →
      mixInstance nc frames out inst (f * nc + (inst.audioChannel + 1)) =
        out (f * nc + (inst.audioChannel + 1)) + inst.gateOut f) ∧
    (∀ (instances : List MixInstance) (outputLen nc j : ℕ),
      (∀ inst ∈ instances, j % nc ≠ inst.audioChannel ∧
        (inst.usesDualChannel = true → j % nc ≠ inst.audioChannel + 1)) →
      MultiEngineSynth.process instances outputLen nc j = 0) := by
  refine ⟨mixInstance_untouched, mixInstance_out_of_range,
    mixInstance_single_add, mixInstance_dual_pitch_add,
    mixInstance_dual_gate_add, fun instances outputLen nc j hall => ?_⟩
  exact mix_foldl_untouched nc (outputLen / nc) j instances (fun _ => 0) hall

/-- C3 witness: an instance assigned to channel 7 of a 2-channel output is
ignored and leaves the buffer untouched. -/
theorem mixer_channel_routing_witness :
    mixInstance 2 4 (fun _ => (5 : ℚ)) ⟨7, false, fun _ => 1, fun _ => 0⟩ 3 = 5 :=
  mixer_channel_routing.2.1 2 4 (fun _ => (5 : ℚ))
    ⟨7, false, fun _ => 1, fun _ => 0⟩ 3 (by norm_num)

/-! ### Envelope lemmas -/

/-- The level invariant of the envelope: the current level, the sustain level
and any captured release level all lie in `[0,1]`. -/
def Envelope.LevelInv (e : Envelope) : Prop :=
  0 ≤ e.currentLevel ∧ e.currentLevel ≤ 1 ∧
  0 ≤ e.sustain ∧ e.sustain ≤ 1 ∧
  ∀ s l, e.state = .release s l → 0 ≤ l ∧ l ≤ 1

lemma Envelope.nextSample_snd (e : Envelope) :
    e.nextSample.2 = e.nextSample.1.currentLevel := rfl

lemma Envelope.levelInv_nextSample (e : Envelope) (h : e.LevelInv) :
    e.nextSample.1.LevelInv := by
  obtain ⟨h0, h1, hs0, hs1, hrel⟩ := h
  rcases hstate : e.state with _ | s | s | _ | ⟨s, l⟩ <;>
    simp only [Envelope.nextSample, hstate]
  · exact ⟨le_refl 0, zero_le_one, hs0, hs1, fun s2 l2 h2 => by cases h2⟩
  · split_ifs with hdone
    · exact ⟨zero_le_one, le_refl 1, hs0, hs1, fun s2 l2 h2 => by cases h2⟩
    · set el := e.sampleCount - s with hel
      set aS := Envelope.stageSamples e.attack e.sampleRate with haS
      have hlt : (el : ℚ) < (aS : ℚ) := by exact_mod_cast by omega
      have hpos : (0 : ℚ) < (aS : ℚ) := lt_of_le_of_lt (Nat.cast_nonneg el) hlt
      refine ⟨div_nonneg (Nat.cast_nonneg el) (le_of_lt hpos),
        (div_le_one hpos).mpr (le_of_lt hlt), hs0, hs1,
        fun s2 l2 h2 => by cases h2⟩
  · split_ifs with hdone
    · exact ⟨hs0, hs1, hs0, hs1, fun s2 l2 h2 => by cases h2⟩
    · set el := e.sampleCount - s with hel
      set dS := Envelope.stageSamples e.decay e.sampleRate with hdS
      have hlt : (el : ℚ) < (dS : ℚ) := by exact_mod_cast by omega
      have hpos : (0 : ℚ) < (dS : ℚ) := lt_of_le_of_lt (Nat.cast_nonneg el) hlt
      have hp0 : (0 : ℚ) ≤ (el : ℚ) / (dS : ℚ) :=
        div_nonneg (Nat.cast_nonneg el) (le_of_lt hpos)
      have hp1 : (el : ℚ) / (dS : ℚ) ≤ 1 := (div_le_one hpos).mpr (le_of_lt hlt)
      have hm0 : (0 : ℚ) ≤ (el : ℚ) / (dS : ℚ) * (1 - e.sustain) :=
        mul_nonneg hp0 (by linarith)
      have hm1 : (el : ℚ) / (dS : ℚ) * (1 - e.sustain) ≤ 1 :=
        mul_le_one₀ hp1 (by linarith) (by linarith)
      exact ⟨by linarith, by linarith, hs0, hs1, fun s2 l2 h2 => by cases h2⟩
  · exact ⟨hs0, hs1, hs0, hs1, fun s2 l2 h2 => by cases h2⟩
  · obtain ⟨hl0, hl1⟩ := hrel s l hstate
    split_ifs with hdone
    · exact ⟨le_refl 0, zero_le_one, hs0, hs1, fun s2 l2 h2 => by cases h2⟩
    · set el := e.sampleCount - s with hel
      set rS := Envelope.stageSamples e.release e.sampleRate with hrS
      have hlt : (el : ℚ) < (rS : ℚ) := by exact_mod_cast by omega
      have hpos : (0 : ℚ) < (rS : ℚ) := lt_of_le_of_lt (Nat.cast_nonneg el) hlt
      have hp0 : (0 : ℚ) ≤ (el : ℚ) / (rS : ℚ) :=
        div_nonneg (Nat.cast_nonneg el) (le_of_lt hpos)
      have hp1 : (el : ℚ) / (rS : ℚ) ≤ 1 := (div_le_one hpos).mpr (le_of_lt hlt)
      refine ⟨mul_nonneg hl0 (by linarith),
        mul_le_one₀ hl1 (by linarith) (by linarith), hs0, hs1,
        fun s2 l2 h2 => ?_⟩
      injection h2 with h2s h2l
      rw [← h2l]
      exact ⟨hl0, hl1⟩

lemma Envelope.levelInv_applyOp (e : Envelope) (h : e.LevelInv) (op : EnvOp) :
    (e.applyOp op).LevelInv := by
  obtain ⟨h0, h1, hs0, hs1, hrel⟩ := h
  cases op with
  | noteOn =>
      exact ⟨h0, h1, hs0, hs1, fun s2 l2 h2 => by cases h2⟩
  | noteOff =>
      refine ⟨h0, h1, hs0, hs1, fun s2 l2 h2 => ?_⟩
      injection h2 with h2s h2l
      rw [← h2l]
      exact ⟨h0, h1⟩
  | next => exact e.levelInv_nextSample ⟨h0, h1, hs0, hs1, hrel⟩

lemma Envelope.levelInv_runOps (e : Envelope) (h : e.LevelInv) (ops : List EnvOp) :
    (e.runOps ops).LevelInv := by
  induction ops generalizing e with
  | nil => exact h
  | cons op rest ih => exact ih (e.applyOp op) (e.levelInv_applyOp h op)

lemma Envelope.levelInv_new_setAdsr (sr a d s r : ℚ) :
    ((Envelope.new sr).setAdsr a d s r).LevelInv := by
  refine ⟨le_refl 0, zero_le_one, ?_, ?_, fun s2 l2 h2 => by cases h2⟩
  · exact le_min (le_max_right s 0) zero_le_one
  · exact min_le_right _ 1

lemma Envelope.nexts_succ_front (e : Envelope) (n : ℕ) :
    e.nexts (n + 1) = (e.nextSample.1).nexts n := by
  induction n with
  | zero => rfl
  | succ n ih =>
      show (e.nexts (n + 1)).nextSample.1 = _
      rw [ih]
      rfl

lemma Envelope.idle_step (e : Envelope) (h : e.state = .idle) :
    e.nextSample.1.state = .idle := by
  simp only [Envelope.nextSample, h]

lemma Envelope.idle_stays (e : Envelope) (h : e.state = .idle) :
    ∀ m : ℕ, (e.nexts m).state = .idle := by
  intro m
  induction m with
  | zero => exact h
  | succ m ih => exact Envelope.idle_step _ ih

lemma Envelope.release_step_params (e : Envelope) (s : ℕ) (l : ℚ)
    (hstate : e.state = .release s l)
    (hnd : ¬ Envelope.stageSamples e.release e.sampleRate ≤ e.sampleCount - s) :
    e.nextSample.1.state = EnvelopeState.release s l ∧
    e.nextSample.1.sampleCount = e.sampleCount + 1 ∧
    e.nextSample.1.release = e.release ∧
    e.nextSample.1.sampleRate = e.sampleRate := by
  simp only [Envelope.nextSample, hstate]
  rw [if_neg hnd]
  exact ⟨rfl, rfl, rfl, rfl⟩

lemma Envelope.release_completes : ∀ (m : ℕ) (e : Envelope) (s : ℕ) (l : ℚ),
    e.state = .release s l → s ≤ e.sampleCount →
    Envelope.stageSamples e.release e.sampleRate ≤ e.sampleCount - s + m →
    (e.nexts (m + 1)).state = .idle := by
  intro m
  induction m with
  | zero =>
      intro e s l hstate hle hbound
      show e.nextSample.1.state = .idle
      simp only [Envelope.nextSample, hstate]
      rw [if_pos (by omega)]
  | succ m ih =>
      intro e s l hstate hle hbound
      rw [Envelope.nexts_succ_front]
      by_cases hdone : Envelope.stageSamples e.release e.sampleRate ≤ e.sampleCount - s
      · have hidle : e.nextSample.1.state = .idle := by
          simp only [Envelope.nextSample, hstate]
          rw [if_pos hdone]
        exact Envelope.idle_stays _ hidle (m + 1)
      · obtain ⟨hst, hct, hrl, hsr⟩ := e.release_step_params s l hstate hdone
        exact ih e.nextSample.1 s l hst (by omega) (by rw [hrl, hsr, hct]; omega)

lemma Envelope.state_idle_isActive (e : Envelope) (h : e.state = .idle) :
    e.isActive = false := by
  simp [Envelope.isActive, h]

lemma Envelope.applyOp_params (e : Envelope) (op : EnvOp) :
    (e.applyOp op).attack = e.attack ∧ (e.applyOp op).decay = e.decay ∧
    (e.applyOp op).release = e.release ∧
    (e.applyOp op).sampleRate = e.sampleRate := by
  cases op with
  | noteOn => exact ⟨rfl, rfl, rfl, rfl⟩
  | noteOff => exact ⟨rfl, rfl, rfl, rfl⟩
  | next =>
      simp only [Envelope.applyOp]
      rcases hstate : e.state with _ | s | s | _ | ⟨s, l⟩ <;>
        simp only [Envelope.nextSample, hstate] <;>
        first
        | exact ⟨trivial, trivial, trivial, trivial⟩
        | (split_ifs <;> exact ⟨rfl, rfl, rfl, rfl⟩)

lemma Envelope.runOps_params (e : Envelope) (ops : List EnvOp) :
    (e.runOps ops).attack = e.attack ∧ (e.runOps ops).decay = e.decay ∧
    (e.runOps ops).release = e.release ∧
    (e.runOps ops).sampleRate = e.sampleRate := by
  induction ops generalizing e with
  | nil => exact ⟨rfl, rfl, rfl, rfl⟩
  | cons op rest ih =>
      obtain ⟨ha, hd, hr, hs⟩ := ih (e.applyOp op)
      obtain ⟨ha2, hd2, hr2, hs2⟩ := e.applyOp_params op
      exact ⟨ha.trans ha2, hd.trans hd2, hr.trans hr2, hs.trans hs2⟩

/-- C2: for every positive sample rate, every parameter set installed through
`set_adsr` and every sequence of note_on/note_off/next_sample calls, the
level returned by `next_sample` lies in `[0,1]`; and after a `note_off` with
no later `note_on`, `is_active` is false within
`floor((attack+decay+release) * sample_rate) + 1` further samples (which is
at most the claimed `(attack+decay+release)*sample_rate + 1`). -/
theorem envelope_level_and_release (sr a d s r : ℚ) (ops : List EnvOp)
    (hsr : 0 < sr) :
    (0 ≤ (((Envelope.new sr).setAdsr a d s r).runOps ops).nextSample.2 ∧
      (((Envelope.new sr).setAdsr a d s r).runOps ops).nextSample.2 ≤ 1) ∧
    ∀ m : ℕ,
      Envelope.stageSamples
          ((((Envelope.new sr).setAdsr a d s r).runOps ops).attack +
            (((Envelope.new sr).setAdsr a d s r).runOps ops).decay +
            (((Envelope.new sr).setAdsr a d s r).runOps ops).release) sr + 1 ≤ m →
      ((((Envelope.new sr).setAdsr a d s r).runOps ops).noteOff.nexts m).isActive
        = false := by
  set e0 := (Envelope.new sr).setAdsr a d s r with he0
  set e := e0.runOps ops with he
  have hinv : e.LevelInv :=
    e0.levelInv_runOps (Envelope.levelInv_new_setAdsr sr a d s r) ops
  have hinv2 : e.nextSample.1.LevelInv := e.levelInv_nextSample hinv
  obtain ⟨ha, hd, hr, hsrEq⟩ := e0.runOps_params ops
  have ha0 : (1 : ℚ)/1000 ≤ e.attack := by rw [← he] at ha; rw [ha]; exact le_max_right a _
  have hd0 : (1 : ℚ)/1000 ≤ e.decay := by rw [← he] at hd; rw [hd]; exact le_max_right d _
  have hsr2 : e.sampleRate = sr := by rw [← he] at hsrEq; exact hsrEq
  constructor
  · rw [Envelope.nextSample_snd]
    exact ⟨hinv2.1, hinv2.2.1⟩
  · intro m hm
    have hmono : Envelope.stageSamples e.release sr ≤
        Envelope.stageSamples (e.attack + e.decay + e.release) sr := by
      apply Int.toNat_le_toNat
      apply Int.floor_mono
      nlinarith
    have hm2 : Envelope.stageSamples e.release sr + 1 ≤ m := by omega
    have hstate : e.noteOff.state = .release e.sampleCount e.currentLevel := rfl
    have hm1 : 1 ≤ m := by omega
    have hidle : (e.noteOff.nexts ((m - 1) + 1)).state = .idle := by
      apply Envelope.release_completes (m - 1) e.noteOff e.sampleCount
        e.currentLevel hstate le_rfl
      show Envelope.stageSamples e.release e.sampleRate ≤
        e.sampleCount - e.sampleCount + (m - 1)
      rw [hsr2]
      omega
    rw [show (m - 1) + 1 = m by omega] at hidle
    exact Envelope.state_idle_isActive _ hidle

/-- C2 witness: with 1 ms attack/decay/release at 1 kHz the envelope is
inactive four samples after note_off, and the next level is in bounds. -/
theorem envelope_level_and_release_witness :
    (0 ≤ (((Envelope.new 1000).setAdsr 0 0 0 0).runOps []).nextSample.2 ∧
      (((Envelope.new 1000).setAdsr 0 0 0 0).runOps []).nextSample.2 ≤ 1) ∧
    ((((Envelope.new 1000).setAdsr 0 0 0 0).runOps []).noteOff.nexts 4).isActive
      = false :=
  ⟨(envelope_level_and_release 1000 0 0 0 0 [] (by norm_num)).1,
   (envelope_level_and_release 1000 0 0 0 0 [] (by norm_num)).2 4
     (by
       norm_num [Envelope.runOps, List.foldl, Envelope.setAdsr, Envelope.new,
         Envelope.stageSamples]
       decide)⟩

/-! ### Voice pool allocation lemmas -/

lemma firstIdx_some {α : Type} [Inhabited α] (pred : α → Bool) :
    ∀ (l : List α) (i : ℕ), firstIdx pred l = some i →
      i < l.length ∧ pred (l.getD i default) = true ∧
      ∀ j < i, pred (l.getD j default) = false := by
  intro l
  induction l with
  | nil => intro i h; cases h
  | cons a rest ih =>
      intro i h
      by_cases hp : pred a = true
      · rw [firstIdx, if_pos hp] at h
        injection h with h0
        subst h0
        exact ⟨Nat.succ_pos _, hp, fun j hj => absurd hj (Nat.not_lt_zero j)⟩
      · rw [firstIdx, if_neg hp] at h
        rcases ho : firstIdx pred rest with _ | i0
        · rw [ho] at h; cases h
        · rw [ho] at h
          injection h with hi
          obtain ⟨hlen, hpi, hprev⟩ := ih i0 ho
          have hi2 : i0 + 1 = i := hi
          subst hi2
          refine ⟨by simpa using Nat.succ_lt_succ hlen, hpi, fun j hj => ?_⟩
          cases j with
          | zero => exact Bool.eq_false_iff.mpr hp
          | succ j0 => exact hprev j0 (by omega)

lemma firstIdx_none {α : Type} [Inhabited α] (pred : α → Bool) :
    ∀ l : List α, firstIdx pred l = none →
      ∀ j < l.length, pred (l.getD j default) = false := by
  intro l
  induction l with
  | nil => intro _ j hj; exact absurd hj (Nat.not_lt_zero j)
  | cons a rest ih =>
      intro h j hj
      by_cases hp : pred a = true
      · rw [firstIdx, if_pos hp] at h; cases h
      · rw [firstIdx, if_neg hp] at h
        cases j with
        | zero => exact Bool.eq_false_iff.mpr hp
        | succ j0 =>
            rcases ho : firstIdx pred rest with _ | i0
            · exact ih ho j0 (by simpa using hj)
            · rw [ho] at h; cases h

lemma minAgeIdxAux_spec :
    ∀ (rest : List PoolVoice) (i : ℕ) (best : ℕ × ℕ),
      ((minAgeIdxAux i best rest).2 ≤ best.2 ∧
        ∀ k < rest.length,
          (minAgeIdxAux i best rest).2 ≤ (rest.getD k default).age) ∧
      (minAgeIdxAux i best rest = best ∨
        ∃ k, k < rest.length ∧ (minAgeIdxAux i best rest).1 = i + k ∧
          (minAgeIdxAux i best rest).2 = (rest.getD k default).age ∧
          (minAgeIdxAux i best rest).2 < best.2 ∧
          ∀ k2 < k, (minAgeIdxAux i best rest).2 < (rest.getD k2 default).age) := by
  intro rest
  induction rest with
  | nil =>
      intro i best
      exact ⟨⟨le_rfl, fun k hk => absurd hk (Nat.not_lt_zero k)⟩, Or.inl rfl⟩
  | cons v rest ih =>
      intro i best
      by_cases hv : v.age < best.2
      · have hred : minAgeIdxAux i best (v :: rest) =
            minAgeIdxAux (i + 1) (i, v.age) rest := by
          simp only [minAgeIdxAux, if_pos hv]
        obtain ⟨⟨hmin1, hmin2⟩, hcases⟩ := ih (i + 1) (i, v.age)
        rw [hred]
        refine ⟨⟨le_trans hmin1 (le_of_lt hv), fun k hk => ?_⟩, ?_⟩
        · cases k with
          | zero => exact hmin1
          | succ k0 => exact hmin2 k0 (by simpa using hk)
        · rcases hcases with heq | ⟨k0, hk0, hr1, hr2, hr3, hr4⟩
          · right
            refine ⟨0, Nat.succ_pos _, ?_, ?_, ?_, ?_⟩
            · rw [heq]
              rfl
            · rw [heq]
              rfl
            · rw [heq]; exact hv
            · intro k2 hk2; exact absurd hk2 (Nat.not_lt_zero k2)
          · right
            refine ⟨k0 + 1, by simpa using Nat.succ_lt_succ hk0,
              by rw [hr1]; omega, hr2, lt_trans hr3 hv, fun k2 hk2 => ?_⟩
            cases k2 with
            | zero => exact hr3
            | succ k2 => exact hr4 k2 (by omega)
      · have hred : minAgeIdxAux i best (v :: rest) =
            minAgeIdxAux (i + 1) best rest := by
          simp only [minAgeIdxAux, if_neg hv]
        obtain ⟨⟨hmin1, hmin2⟩, hcases⟩ := ih (i + 1) best
        rw [hred]
        have hbv : best.2 ≤ v.age := le_of_not_lt hv
        refine ⟨⟨hmin1, fun k hk => ?_⟩, ?_⟩
        · cases k with
          | zero => exact le_trans hmin1 hbv
          | succ k0 => exact hmin2 k0 (by simpa using hk)
        · rcases hcases with heq | ⟨k0, hk0, hr1, hr2, hr3, hr4⟩
          · exact Or.inl heq
          · right
            refine ⟨k0 + 1, by simpa using Nat.succ_lt_succ hk0,
              by rw [hr1]; omega, hr2, hr3, fun k2 hk2 => ?_⟩
            cases k2 with
            | zero => exact lt_of_lt_of_le hr3 hbv
            | succ k2 => exact hr4 k2 (by omega)

lemma minAgeIdx_spec (l : List PoolVoice) (hne : l ≠ []) :
    minAgeIdx l < l.length ∧
    (∀ j < l.length,
      (l.getD (minAgeIdx l) default).age ≤ (l.getD j default).age) ∧
    ∀ j < minAgeIdx l,
      (l.getD (minAgeIdx l) default).age < (l.getD j default).age := by
  cases l with
  | nil => exact absurd rfl hne
  | cons v rest =>
      obtain ⟨⟨hmin1, hmin2⟩, hcases⟩ := minAgeIdxAux_spec rest 1 (0, v.age)
      rcases hcases with heq | ⟨k0, hk0, hr1, hr2, hr3, hr4⟩
      · have hidx : minAgeIdx (v :: rest) = 0 := by
          show (minAgeIdxAux 1 (0, v.age) rest).1 = 0
          rw [heq]
        rw [hidx]
        refine ⟨Nat.succ_pos _, fun j hj => ?_,
          fun j hj => absurd hj (Nat.not_lt_zero j)⟩
        cases j with
        | zero => exact le_rfl
        | succ j0 =>
            have hm := hmin2 j0 (by simpa using hj)
            rw [heq] at hm
            exact hm
      · have hidx : minAgeIdx (v :: rest) = k0 + 1 := by
          show (minAgeIdxAux 1 (0, v.age) rest).1 = k0 + 1
          rw [hr1]
          omega
        rw [hidx]
        refine ⟨by simpa using Nat.succ_lt_succ hk0, fun j hj => ?_,
          fun j hj => ?_⟩
        · show (rest.getD k0 default).age ≤ _
          cases j with
          | zero => rw [← hr2]; exact le_of_lt hr3
          | succ j0 => rw [← hr2]; exact hmin2 j0 (by simpa using hj)
        · show (rest.getD k0 default).age < _
          cases j with
          | zero => rw [← hr2]; exact hr3
          | succ j0 => rw [← hr2]; exact hr4 j0 (by omega)

lemma getD_set_self {α : Type} [Inhabited α] :
    ∀ (l : List α) (i : ℕ) (a : α), i < l.length →
      (l.set i a).getD i default = a := by
  intro l
  induction l with
  | nil => intro i a h; exact absurd h (Nat.not_lt_zero i)
  | cons x rest ih =>
      intro i a h
      cases i with
      | zero => rfl
      | succ i0 => exact ih i0 a (by simpa using h)

lemma getD_set_ne {α : Type} [Inhabited α] :
    ∀ (l : List α) (i j : ℕ) (a : α), j ≠ i →
      (l.set i a).getD j default = l.getD j default := by
  intro l
  induction l with
  | nil => intro i j a _; rfl
  | cons x rest ih =>
      intro i j a h
      cases i with
      | zero =>
          cases j with
          | zero => exact absurd rfl h
          | succ j0 => rfl
      | succ i0 =>
          cases j with
          | zero => rfl
          | succ j0 => exact ih i0 j0 a (by omega)

lemma PoolVoice.not_idle_active (v : PoolVoice) (h : v.isIdle = false) :
    v.isActiveState = true := by
  rcases hs : v.state with _ | note
  · rw [PoolVoice.isIdle, hs] at h
    cases h
  · rw [PoolVoice.isActiveState, hs]

lemma find_idle (p : VoicePool) (i : ℕ)
    (h : firstIdx PoolVoice.isIdle p.voices = some i) :
    p.findVoiceForNote = i := by
  simp [VoicePool.findVoiceForNote, h]

lemma find_releasing (p : VoicePool)
    (h1 : firstIdx PoolVoice.isIdle p.voices = none) (i : ℕ)
    (h2 : firstIdx PoolVoice.isReleasing p.voices = some i) :
    p.findVoiceForNote = i := by
  simp [VoicePool.findVoiceForNote, h1, h2]

lemma find_oldest (p : VoicePool)
    (h1 : firstIdx PoolVoice.isIdle p.voices = none)
    (h2 : firstIdx PoolVoice.isReleasing p.voices = none) :
    p.findVoiceForNote = minAgeIdx p.voices := by
  simp [VoicePool.findVoiceForNote, h1, h2]

/-- C1: `note_on` chooses the first idle slot if one exists, else the first
releasing slot, else the slot with minimal age (oldest allocation, ties
stably broken by lowest index); the chosen slot becomes Active(note) with age
equal to the pre-call global age, the global age increments, all other slots
are untouched, and (whenever any allocation has happened, so that ages are
below the global age) the new age is strictly greater than every other
slot's. -/
theorem voice_allocation (p : VoicePool) (note : ℕ) (frequency : ℚ)
    (hne : p.voices ≠ [])
    (hages : p.globalAge = 0 ∨
      ∀ j < p.voices.length, (p.voices.getD j default).age < p.globalAge) :
    p.findVoiceForNote < p.voices.length ∧
    ((∃ j, j < p.voices.length ∧ (p.voices.getD j default).isIdle = true) →
      (p.voices.getD p.findVoiceForNote default).isIdle = true ∧
      ∀ j < p.findVoiceForNote, (p.voices.getD j default).isIdle = false) ∧
    ((∀ j < p.voices.length, (p.voices.getD j default).isIdle = false) →
      (∃ j, j < p.voices.length ∧
        (p.voices.getD j default).isReleasing = true) →
      (p.voices.getD p.findVoiceForNote default).isReleasing = true ∧
      ∀ j < p.findVoiceForNote,
        (p.voices.getD j default).isReleasing = false) ∧
    ((∀ j < p.voices.length, (p.voices.getD j default).isIdle = false) →
      (∀ j < p.voices.length, (p.voices.getD j default).isReleasing = false) →
      (p.voices.getD p.findVoiceForNote default).isActiveState = true ∧
      ∀ j < p.voices.length,
        (p.voices.getD p.findVoiceForNote default).age ≤
          (p.voices.getD j default).age ∧
        ((p.voices.getD j default).age =
            (p.voices.getD p.findVoiceForNote default).age →
          p.findVoiceForNote ≤ j)) ∧
    ((p.noteOn note frequency).voices.getD p.findVoiceForNote default).state =
      .active note ∧
    ((p.noteOn note frequency).voices.getD p.findVoiceForNote default).age =
      p.globalAge ∧
    (p.noteOn note frequency).globalAge = p.globalAge + 1 ∧
    (∀ j < p.voices.length, j ≠ p.findVoiceForNote →
      (p.noteOn note frequency).voices.getD j default =
        p.voices.getD j default) ∧
    (p.globalAge = 0 ∨
      ∀ j < p.voices.length, j ≠ p.findVoiceForNote →
        ((p.noteOn note frequency).voices.getD j default).age <
          ((p.noteOn note frequency).voices.getD p.findVoiceForNote
            default).age) := by
  have hlen : p.findVoiceForNote < p.voices.length := by
    rcases h1 : firstIdx PoolVoice.isIdle p.voices with _ | i1
    · rcases h2 : firstIdx PoolVoice.isReleasing p.voices with _ | i2
      · rw [find_oldest p h1 h2]
        exact (minAgeIdx_spec p.voices hne).1
      · rw [find_releasing p h1 i2 h2]
        exact (firstIdx_some _ p.voices i2 h2).1
    · rw [find_idle p i1 h1]
      exact (firstIdx_some _ p.voices i1 h1).1
  have hsetSelf :
      (p.noteOn note frequency).voices.getD p.findVoiceForNote default =
        { p.voices.getD p.findVoiceForNote default with
          voice := (p.voices.getD p.findVoiceForNote default).voice.noteOn
            frequency
          state := .active note
          age := p.globalAge } :=
    getD_set_self p.voices p.findVoiceForNote _ hlen
  have hsetNe : ∀ j, j ≠ p.findVoiceForNote →
      (p.noteOn note frequency).voices.getD j default =
        p.voices.getD j default := by
    intro j hj
    exact getD_set_ne p.voices p.findVoiceForNote j _ hj
  refine ⟨hlen, ?_, ?_, ?_, ?_, ?_, rfl, fun j _ hj => hsetNe j hj, ?_⟩
  · rintro ⟨j, hj, hpj⟩
    rcases h1 : firstIdx PoolVoice.isIdle p.voices with _ | i1
    · have := firstIdx_none _ p.voices h1 j hj
      rw [hpj] at this
      cases this
    · rw [find_idle p i1 h1]
      obtain ⟨_, hp, hprev⟩ := firstIdx_some _ p.voices i1 h1
      exact ⟨hp, hprev⟩
  · rintro hnoidle ⟨j, hj, hpj⟩
    rcases h1 : firstIdx PoolVoice.isIdle p.voices with _ | i1
    · rcases h2 : firstIdx PoolVoice.isReleasing p.voices with _ | i2
      · have := firstIdx_none _ p.voices h2 j hj
        rw [hpj] at this
        cases this
      · rw [find_releasing p h1 i2 h2]
        obtain ⟨_, hp, hprev⟩ := firstIdx_some _ p.voices i2 h2
        exact ⟨hp, hprev⟩
    · obtain ⟨hl, hp, _⟩ := firstIdx_some _ p.voices i1 h1
      rw [hnoidle i1 hl] at hp
      cases hp
  · intro hnoidle hnorel
    rcases h1 : firstIdx PoolVoice.isIdle p.voices with _ | i1
    · rcases h2 : firstIdx PoolVoice.isReleasing p.voices with _ | i2
      · rw [find_oldest p h1 h2]
        obtain ⟨hl, hmin, hfirst⟩ := minAgeIdx_spec p.voices hne
        refine ⟨PoolVoice.not_idle_active _ (hnoidle _ hl),
          fun j hj => ⟨hmin j hj, fun hagej => ?_⟩⟩
        by_contra hlt
        push_neg at hlt
        have := hfirst j hlt
        omega
      · obtain ⟨hl, hp, _⟩ := firstIdx_some _ p.voices i2 h2
        rw [hnorel i2 hl] at hp
        cases hp
    · obtain ⟨hl, hp, _⟩ := firstIdx_some _ p.voices i1 h1
      rw [hnoidle i1 hl] at hp
      cases hp
  · rw [hsetSelf]
  · rw [hsetSelf]
  · rcases hages with h0 | hall
    · exact Or.inl h0
    · right
      intro j hj hjne
      rw [hsetNe j hjne, hsetSelf]
      exact hall j hj

/-- C1 witness: on a fresh pool the chosen slot index is in range. -/
theorem voice_allocation_witness :
    (VoicePool.new 44100).findVoiceForNote <
      (VoicePool.new 44100).voices.length :=
  (voice_allocation (VoicePool.new 44100) 60 440
    (by simp [VoicePool.new, MAX_VOICES]) (Or.inl rfl)).1

/-! ### Envelope phase-progress lemmas and the kick drum -/

lemma Envelope.nexts_add (e : Envelope) (a b : ℕ) :
    e.nexts (a + b) = (e.nexts a).nexts b := by
  induction b with
  | zero => rfl
  | succ b ih =>
      show (e.nexts (a + b)).nextSample.1 = _
      rw [ih]
      rfl

lemma Envelope.attack_completes : ∀ (m : ℕ) (e : Envelope) (s : ℕ),
    e.state = .attack s → s ≤ e.sampleCount →
    e.sampleCount - s + m = Envelope.stageSamples e.attack e.sampleRate →
    e.nexts (m + 1) =
      { e with
        state := .decay (e.sampleCount + m)
        currentLevel := 1
        sampleCount := e.sampleCount + m + 1 } := by
  intro m
  induction m with
  | zero =>
      intro e s hstate hle hbound
      show e.nextSample.1 = _
      simp only [Envelope.nextSample, hstate]
      rw [if_pos (by omega)]
      rfl
  | succ m ih =>
      intro e s hstate hle hbound
      have hnd : ¬ Envelope.stageSamples e.attack e.sampleRate ≤
          e.sampleCount - s := by omega
      have hstep : e.nextSample.1 =
          { e with
            currentLevel := ((e.sampleCount - s : ℕ) : ℚ) /
              ((Envelope.stageSamples e.attack e.sampleRate : ℕ) : ℚ)
            sampleCount := e.sampleCount + 1 } := by
        simp only [Envelope.nextSample, hstate]
        rw [if_neg hnd]
      have hst2 : e.nextSample.1.state = .attack s := by
        rw [hstep]; exact hstate
      have hle2 : s ≤ e.nextSample.1.sampleCount := by
        rw [hstep]; show s ≤ e.sampleCount + 1; omega
      have hbound2 : e.nextSample.1.sampleCount - s + m =
          Envelope.stageSamples e.nextSample.1.attack
            e.nextSample.1.sampleRate := by
        rw [hstep]
        show e.sampleCount + 1 - s + m =
          Envelope.stageSamples e.attack e.sampleRate
        omega
      rw [Envelope.nexts_succ_front, ih e.nextSample.1 s hst2 hle2 hbound2]
      simp only [hstep, Envelope.mk.injEq, EnvelopeState.decay.injEq,
        and_true, true_and]
      omega

lemma Envelope.decay_completes : ∀ (m : ℕ) (e : Envelope) (s : ℕ),
    e.state = .decay s → s ≤ e.sampleCount →
    e.sampleCount - s + m = Envelope.stageSamples e.decay e.sampleRate →
    e.nexts (m + 1) =
      { e with
        state := .sustain
        currentLevel := e.sustain
        sampleCount := e.sampleCount + m + 1 } := by
  intro m
  induction m with
  | zero =>
      intro e s hstate hle hbound
      show e.nextSample.1 = _
      simp only [Envelope.nextSample, hstate]
      rw [if_pos (by omega)]
  | succ m ih =>
      intro e s hstate hle hbound
      have hnd : ¬ Envelope.stageSamples e.decay e.sampleRate ≤
          e.sampleCount - s := by omega
      have hstep : e.nextSample.1 =
          { e with
            currentLevel := 1 - ((e.sampleCount - s : ℕ) : ℚ) /
              ((Envelope.stageSamples e.decay e.sampleRate : ℕ) : ℚ) *
              (1 - e.sustain)
            sampleCount := e.sampleCount + 1 } := by
        simp only [Envelope.nextSample, hstate]
        rw [if_neg hnd]
      have hst2 : e.nextSample.1.state = .decay s := by
        rw [hstep]; exact hstate
      have hle2 : s ≤ e.nextSample.1.sampleCount := by
        rw [hstep]; show s ≤ e.sampleCount + 1; omega
      have hbound2 : e.nextSample.1.sampleCount - s + m =
          Envelope.stageSamples e.nextSample.1.decay
            e.nextSample.1.sampleRate := by
        rw [hstep]
        show e.sampleCount + 1 - s + m =
          Envelope.stageSamples e.decay e.sampleRate
        omega
      rw [Envelope.nexts_succ_front, ih e.nextSample.1 s hst2 hle2 hbound2]
      simp only [hstep, Envelope.mk.injEq, and_true, true_and]
      omega

lemma Envelope.sustain_step (e : Envelope) (h : e.state = .sustain) :
    e.nextSample.1 =
      { e with currentLevel := e.sustain, sampleCount := e.sampleCount + 1 } := by
  simp only [Envelope.nextSample, h]

lemma Envelope.sustain_stays (e : Envelope) (h : e.state = .sustain) :
    ∀ m : ℕ, 1 ≤ m →
      (e.nexts m).state = .sustain ∧
      (e.nexts m).currentLevel = e.sustain ∧
      (e.nexts m).sustain = e.sustain := by
  intro m
  induction m with
  | zero => intro h0; exact absurd h0 (by omega)
  | succ m ih =>
      intro _
      have hone : e.nexts (m + 1) = (e.nexts m).nextSample.1 := rfl
      by_cases hm : 1 ≤ m
      · obtain ⟨hs, _, hsus⟩ := ih hm
        rw [hone, Envelope.sustain_step (e.nexts m) hs]
        exact ⟨hs, hsus, hsus⟩
      · have hm0 : m = 0 := by omega
        subst hm0
        rw [hone, Envelope.sustain_step (e.nexts 0) h]
        exact ⟨h, rfl, rfl⟩

lemma Envelope.sustain_isActive (e : Envelope) (h : e.state = .sustain) :
    e.isActive = true := by
  simp [Envelope.isActive, h]

lemma KickDrum.run_ampEnvelope (gen : Waveform → ℚ → ℚ) (k : KickDrum) :
    ∀ n : ℕ, (k.run gen n).ampEnvelope = k.ampEnvelope.nexts n := by
  intro n
  induction n with
  | zero => rfl
  | succ n ih =>
      show (k.run gen n).ampEnvelope.nextSample.1 =
        (k.ampEnvelope.nexts n).nextSample.1
      rw [ih]

lemma KickDrum.output_zero (gen : Waveform → ℚ → ℚ) (k : KickDrum)
    (h : k.ampEnvelope.nextSample.2 = 0) : (k.nextSample gen).2 = 0 := by
  show k.vca.process _ k.ampEnvelope.nextSample.2 = 0
  rw [VCA.process, h, mul_zero, zero_mul]

/-- C4 evidence: after a kick trigger with no further events, from sample
13276 on (13275 = attack+decay samples at 44.1 kHz) every output sample is
exactly 0, yet `is_active()` still returns true — the amplitude envelope
(sustain = 0, no note_off ever sent) parks in the Sustain state at level 0
and never reaches Idle, so the voice never reports inactive. -/
theorem kick_silent_but_active (gen : Waveform → ℚ → ℚ) (n : ℕ)
    (hn : 13275 ≤ n) :
    ((KickDrum.new 44100).trigger.run gen n).isActive = true ∧
    (((KickDrum.new 44100).trigger.run gen n).nextSample gen).2 = 0 := by
  set e0 := (KickDrum.new 44100).trigger.ampEnvelope with he0
  have hesimp : e0 =
      { state := .attack 0, attack := 1/1000, decay := 3/10, sustain := 0,
        release := 1/1000, currentLevel := 0, sampleRate := 44100,
        sampleCount := 0 } := by
    show ((Envelope.new 44100).setAdsr (1/1000) (3/10) 0 0).noteOn = _
    have h1 : max ((1 : ℚ)/1000) (1/1000) = 1/1000 := max_self _
    have h2 : max ((3 : ℚ)/10) (1/1000) = 3/10 := max_eq_left (by norm_num)
    have h3 : min (max (0 : ℚ) 0) 1 = 0 := by
      rw [max_self]
      exact min_eq_left (by norm_num)
    have h4 : max (0 : ℚ) (1/1000) = 1/1000 := max_eq_right (by norm_num)
    simp [Envelope.new, Envelope.setAdsr, Envelope.noteOn, h1, h2, h3, h4]
    norm_num
  have haS : Envelope.stageSamples (1/1000) 44100 = 44 := by
    norm_num [Envelope.stageSamples]
    rfl
  have hdS : Envelope.stageSamples (3/10) 44100 = 13230 := by
    norm_num [Envelope.stageSamples]
    rfl
  have hA : e0.nexts 45 =
      { state := .decay 44, attack := 1/1000, decay := 3/10, sustain := 0,
        release := 1/1000, currentLevel := 1, sampleRate := 44100,
        sampleCount := 45 } := by
    rw [hesimp,
      Envelope.attack_completes 44 _ 0 rfl (Nat.zero_le _)
        (by show 0 - 0 + 44 = Envelope.stageSamples (1/1000) 44100
            rw [haS])]
  have hDc := Envelope.decay_completes 13229
      { state := .decay 44, attack := 1/1000, decay := 3/10, sustain := 0,
        release := 1/1000, currentLevel := 1, sampleRate := 44100,
        sampleCount := 45 } 44 rfl
      (by show (44 : ℕ) ≤ 45; omega)
      (by show 45 - 44 + 13229 = Envelope.stageSamples (3/10) 44100
          rw [hdS])
  have hD : e0.nexts 13275 =
      { state := .sustain, attack := 1/1000, decay := 3/10, sustain := 0,
        release := 1/1000, currentLevel := 0, sampleRate := 44100,
        sampleCount := 13275 } := by
    have hsplit : e0.nexts 13275 = (e0.nexts 45).nexts 13230 := by
      show e0.nexts (45 + 13230) = _
      exact Envelope.nexts_add e0 45 13230
    rw [hsplit, hA]
    exact hDc
  have hrest : e0.nexts n = (e0.nexts 13275).nexts (n - 13275) := by
    have h13 : 13275 + (n - 13275) = n := by omega
    conv_lhs => rw [← h13]
    rw [Envelope.nexts_add]
  have hsust : (e0.nexts n).state = .sustain ∧ (e0.nexts n).sustain = 0 := by
    rw [hrest, hD]
    by_cases hgt : 1 ≤ n - 13275
    · obtain ⟨hs, _, hsus⟩ := Envelope.sustain_stays
        { state := .sustain, attack := 1/1000, decay := 3/10, sustain := 0,
          release := 1/1000, currentLevel := 0, sampleRate := 44100,
          sampleCount := 13275 } rfl (n - 13275) hgt
      exact ⟨hs, hsus⟩
    · have h0 : n - 13275 = 0 := by omega
      rw [h0]
      exact ⟨rfl, rfl⟩
  constructor
  · show ((KickDrum.new 44100).trigger.run gen n).ampEnvelope.isActive = true
    rw [KickDrum.run_ampEnvelope]
    exact Envelope.sustain_isActive _ hsust.1
  · apply KickDrum.output_zero
    rw [KickDrum.run_ampEnvelope, Envelope.nextSample_snd,
      Envelope.sustain_step _ hsust.1]
    exact hsust.2

/-- C4 witness: the concrete failing input, 13275 samples after the
trigger. -/
theorem kick_silent_but_active_witness :
    ((KickDrum.new 44100).trigger.run (fun _ _ => 0) 13275).isActive = true ∧
    (((KickDrum.new 44100).trigger.run (fun _ _ => 0) 13275).nextSample
      (fun _ _ => 0)).2 = 0 :=
  kick_silent_but_active (fun _ _ => 0) 13275 le_rfl

end TheSynth
